import Mathlib

/-!
Shallow embedding of the spacetraders fleet-automation core, translated from
the Python sources under src/spacetraders, together with theorems checking the
specification claims about it.

Modelling conventions:
* Python insertion-ordered dicts are association lists; assignment `d[k] = v`
  updates the existing entry in place or appends a fresh one (`dinsert`), and
  `d.get`/`d[k]` is `dget`.
* Python ints are `Int` (credits can be negative in principle) or `Nat` where
  the source only ever holds non-negative counts.
* Float distances are handled exactly: coordinates are integers, so squared
  distances are naturals; `math.ceil(math.sqrt n)` is `sqrtCeil n`, and
  comparisons between two distances are comparisons between their squares.
  Where a distance appears on its own (router.fuel_cost) it is a rational.
-/

namespace Spacetraders

/-! ### Python dict as an association list -/

/-- Python dict assignment on an insertion-ordered association list:
`d[k] = v` replaces the value in place when the key is present, else appends
the new entry at the end. -/
def dinsert {α : Type} (k : String) (v : α) : List (String × α) → List (String × α)
  | [] => [(k, v)]
  | (k', v') :: t => if k' = k then (k, v) :: t else (k', v') :: dinsert k v t

/-- Python dict lookup `d.get(k)`: the value stored at the first (unique)
occurrence of the key. -/
def dget {α : Type} (k : String) : List (String × α) → Option α
  | [] => none
  | (k', v) :: t => if k' = k then some v else dget k t

/-! ### fleet/missions.py -/

/-- Mission types assignable to ships (`MissionType` in fleet/missions.py). -/
inductive MissionType where
  | trade
  | scan
  | contract
  | gate_build
  | idle
deriving DecidableEq, Repr

/-- Python `MissionType(value)`: `some` on the five enum value strings,
`none` where the constructor raises `ValueError`. -/
def MissionType.parse : String → Option MissionType
  | "trade" => some .trade
  | "scan" => some .scan
  | "contract" => some .contract
  | "gate_build" => some .gate_build
  | "idle" => some .idle
  | _ => none

/-! ### fleet/strategy.py — data model -/

/-- Thresholds that gate capital-intensive decisions (`CapitalPolicy`). -/
structure CapitalPolicy where
  gate_floor : Int := 300000
  trade_min : Int := 50000
  idle_threshold : Int := 30000

/-- A mission assignment for a single ship (`ShipAssignment`); kwargs only
ever holds the integer `capital_floor` argument. -/
structure ShipAssignment where
  mission : MissionType
  kwargs : List (String × Int) := []
deriving DecidableEq, Repr

/-- The output of strategy evaluation (`FleetPlan`): one assignment per ship,
as the insertion-ordered dict `assignments`. -/
structure FleetPlan where
  assignments : List (String × ShipAssignment) := []
deriving Repr

/-- Lookup of a ship's current mission with the dict default
`current.get(symbol, MissionType.IDLE)`. -/
def currentGet (current : List (String × MissionType)) (symbol : String) : MissionType :=
  (dget symbol current).getD .idle

/-- `FleetPlan.changes_from`: ships whose mission changed, as the dict
`{symbol: (old_mission, new_assignment)}` built over the plan's entries. -/
def FleetPlan.changes_from (p : FleetPlan) (current : List (String × MissionType)) :
    List (String × (MissionType × ShipAssignment)) :=
  p.assignments.foldl
    (fun changes entry =>
      let old := currentGet current entry.1
      if entry.2.mission ≠ old then dinsert entry.1 (old, entry.2) changes else changes)
    []

/-- Simplified ship info for strategy decisions (`ShipCapability`). -/
structure ShipCapability where
  symbol : String
  cargo : Int
  fuel : Int
  category : String
  current_mission : MissionType := .idle
deriving DecidableEq, Repr

/-! ### fleet/strategy.py — FleetStrategy.evaluate -/

/-- Comparison used to sort cargo ships by capacity descending
(`cargo_ships.sort(key=lambda s: s.cargo, reverse=True)`; Python's sort is
stable, as is `List.insertionSort`, and both orderings agree). -/
def cargoRel (a b : ShipCapability) : Prop := b.cargo ≤ a.cargo

instance : DecidableRel cargoRel := fun a b => inferInstanceAs (Decidable (b.cargo ≤ a.cargo))

instance : IsTotal ShipCapability cargoRel :=
  ⟨fun a b => le_total b.cargo a.cargo⟩

instance : IsTrans ShipCapability cargoRel :=
  ⟨fun _ _ _ h1 h2 => le_trans h2 h1⟩

/-- One iteration of the partition loop of `FleetStrategy.evaluate`
(strategy.py lines 113-141): threads the accumulated
(assignments, probes, cargo_ships) through the checks on one ship. -/
def partitionStep (skip_ships : List String) (overrides : List (String × String))
    (acc : List (String × ShipAssignment) × List ShipCapability × List ShipCapability)
    (ship : ShipCapability) :
    List (String × ShipAssignment) × List ShipCapability × List ShipCapability :=
  let (plan, probes, cargo_ships) := acc
  if ship.symbol ∈ skip_ships then
    (dinsert ship.symbol ⟨.idle, []⟩ plan, probes, cargo_ships)
  else
    match dget ship.symbol overrides with
    | some s =>
        (dinsert ship.symbol ⟨(MissionType.parse s).getD .idle, []⟩ plan, probes, cargo_ships)
    | none =>
        if ship.category = "disabled" then
          (dinsert ship.symbol ⟨.idle, []⟩ plan, probes, cargo_ships)
        else if ship.category = "sentinel" then
          (dinsert ship.symbol ⟨.idle, []⟩ plan, probes, cargo_ships)
        else if ship.category = "probe" then
          (plan, probes ++ [ship], cargo_ships)
        else if ship.category = "ship" then
          (plan, probes, cargo_ships ++ [ship])
        else
          (dinsert ship.symbol ⟨.idle, []⟩ plan, probes, cargo_ships)

/-- Assignment loop `for s in ships: plan.assignments[s.symbol] = ShipAssignment(m)`. -/
def assignAll (m : MissionType) (ships : List ShipCapability)
    (plan : List (String × ShipAssignment)) : List (String × ShipAssignment) :=
  ships.foldl (fun p s => dinsert s.symbol ⟨m, []⟩ p) plan

/-- Step 1 of the capital branch of `FleetStrategy.evaluate` (strategy.py
lines 163-173): when the gate needs supplies, the credits clear the gate
floor, and a cargo ship remains, pop the largest (head of the sorted list)
and assign it GATE_BUILD with the capital floor in its kwargs. Returns the
updated plan with the remaining unassigned ships. -/
def gatePhase (capital : CapitalPolicy) (credits : Int) (gate_needs_supplies : Bool)
    (plan1 : List (String × ShipAssignment)) (sorted : List ShipCapability) :
    List (String × ShipAssignment) × List ShipCapability :=
  if gate_needs_supplies && decide (capital.gate_floor ≤ credits) then
    match sorted with
    | [] => (plan1, sorted)
    | g :: rest =>
        (dinsert g.symbol ⟨.gate_build, [("capital_floor", capital.gate_floor)]⟩ plan1, rest)
  else (plan1, sorted)

/-- Step 2 of the capital branch (strategy.py lines 175-183): with an active
profitable contract, assign CONTRACT to up to 2 of the remaining ships. -/
def contractPhase (has_active_contract contract_profitable : Bool)
    (st : List (String × ShipAssignment) × List ShipCapability) :
    List (String × ShipAssignment) × List ShipCapability :=
  if has_active_contract && contract_profitable then
    (assignAll .contract (st.2.take 2) st.1, st.2.drop 2)
  else st

/-- Steps 3-4 of the capital branch (strategy.py lines 185-201): the
remaining ships all get TRADE when routes exist and credits clear the trade
minimum, else they all get IDLE. -/
def finishPhase (trade_on : Bool)
    (st : List (String × ShipAssignment) × List ShipCapability) : FleetPlan :=
  { assignments := assignAll (if trade_on then .trade else .idle) st.2 st.1 }

/-- `FleetStrategy.evaluate` (strategy.py lines 77-203), with the strategy's
`CapitalPolicy` passed explicitly. `current_assignments` is accepted but, as
in the source, never read. -/
def FleetStrategy.evaluate (capital : CapitalPolicy) (credits : Int)
    (ships : List ShipCapability)
    (current_assignments : List (String × MissionType))
    (has_active_contract : Bool) (contract_profitable : Bool)
    (gate_needs_supplies : Bool) (market_routes_available : Bool)
    (skip_ships : List String) (overrides : List (String × String)) : FleetPlan :=
  let _ := current_assignments
  let parts := ships.foldl (partitionStep skip_ships overrides) ([], [], [])
  let plan1 := assignAll .scan parts.2.1 parts.1
  if credits < capital.idle_threshold then
    { assignments := assignAll .idle parts.2.2 plan1 }
  else
    finishPhase (market_routes_available && decide (capital.trade_min ≤ credits))
      (contractPhase has_active_contract contract_profitable
        (gatePhase capital credits gate_needs_supplies plan1
          (List.insertionSort cargoRel parts.2.2)))

/-- Ships that the partition loop routes into the probe / cargo pools rather
than assigning directly: not skipped and not manually overridden. -/
def relevantB (skip_ships : List String) (overrides : List (String × String))
    (s : ShipCapability) : Bool :=
  !(decide (s.symbol ∈ skip_ships)) && (dget s.symbol overrides).isNone

/-- The probe ships of an input list, in input order. -/
def probesOf (skip_ships : List String) (overrides : List (String × String))
    (ships : List ShipCapability) : List ShipCapability :=
  ships.filter (fun s => relevantB skip_ships overrides s && s.category == "probe")

/-- The cargo ships of an input list, in input order. -/
def cargoOf (skip_ships : List String) (overrides : List (String × String))
    (ships : List ShipCapability) : List ShipCapability :=
  ships.filter (fun s => relevantB skip_ships overrides s && s.category == "ship")

/-- The assignment the partition loop writes directly for a ship, or `none`
when the loop routes the ship into the probe / cargo pool instead. -/
def routed (skip_ships : List String) (overrides : List (String × String))
    (s : ShipCapability) : Option ShipAssignment :=
  if s.symbol ∈ skip_ships then some ⟨.idle, []⟩
  else
    match dget s.symbol overrides with
    | some ov => some ⟨(MissionType.parse ov).getD .idle, []⟩
    | none =>
        if s.category = "disabled" then some ⟨.idle, []⟩
        else if s.category = "sentinel" then some ⟨.idle, []⟩
        else if s.category = "probe" then none
        else if s.category = "ship" then none
        else some ⟨.idle, []⟩

/-! ### missions/trader.py — safe_sell_volume -/

/-- Supply level to base multiplier (`_SUPPLY_MULTIPLIER` in trader.py). The
Python values are the floats 2.0-6.0; all are integers, so the model keeps
naturals and every multiplication below is exact. -/
def SUPPLY_MULTIPLIER : List (String × Nat) :=
  [("SCARCE", 2), ("LIMITED", 3), ("MODERATE", 4), ("HIGH", 5), ("ABUNDANT", 6)]

/-- `safe_sell_volume` (trader.py lines 62-76). The multiplier is the table
value (default 3), plus 1 for STRONG activity; `int(trade_volume * multiplier)`
truncates an exact integer-valued product, so it is the product itself. -/
def safe_sell_volume (dest_supply : String) (dest_activity : Option String)
    (trade_volume : Nat) (cargo_capacity : Nat := 40) : Nat :=
  let multiplier := (dget dest_supply SUPPLY_MULTIPLIER).getD 3
  let multiplier := if dest_activity = some "STRONG" then multiplier + 1 else multiplier
  min (trade_volume * multiplier) cargo_capacity

/-! ### missions/router.py -/

/-- Flight modes the router distinguishes. -/
inductive FlightMode where
  | cruise
  | drift
  | burn
deriving DecidableEq, Repr

/-- Linear search for the least `k` at or above the accumulator with
`n ≤ k * k`; the fuel argument makes the recursion structural. -/
def sqrtCeilGo (n : Nat) : Nat → Nat → Nat
  | k, 0 => k
  | k, fuel + 1 => if n ≤ k * k then k else sqrtCeilGo n (k + 1) fuel

/-- Ceiling of the square root of a natural: the least `k` with `n ≤ k * k`.
Models `math.ceil(math.sqrt(n))` applied to an integer squared distance;
`sqrtCeil_spec` below pins the characterization down. -/
def sqrtCeil (n : Nat) : Nat := sqrtCeilGo n 0 n

/-- Squared Euclidean distance between integer coordinates. `distance` in
router.py returns the float `sqrt` of this; the model keeps the exact square
and compares squares where the source compares distances. -/
def distSq (x1 y1 x2 y2 : Int) : Nat := ((x2 - x1) ^ 2 + (y2 - y1) ^ 2).toNat

/-- `fuel_cost` (router.py lines 68-76) with the float distance modeled as a
rational: `d = max(1, ceil(dist))`, DRIFT costs 1, BURN `d * 2`, CRUISE `d`. -/
def fuel_cost (dist : ℚ) (mode : FlightMode) : Int :=
  let d : Int := max 1 ⌈dist⌉
  match mode with
  | .drift => 1
  | .burn => d * 2
  | .cruise => d

/-- `fuel_cost` applied to the square root of an integer squared distance:
`max(1, ceil(sqrt n))` scaled by the mode. -/
def fuelCostSq (n : Nat) (mode : FlightMode) : Nat :=
  let d := max 1 (sqrtCeil n)
  match mode with
  | .drift => 1
  | .burn => d * 2
  | .cruise => d

/-- A single leg of a route (`RouteSegment`), with the distance recorded by
its exact square. -/
structure RouteSegment where
  origin : String
  destination : String
  dist2 : Nat
  flight_mode : FlightMode
  fuel_cost : Nat
  travel_seconds : Nat
deriving DecidableEq, Repr

/-- A complete route with fuel analysis (`RoutePlan`). -/
structure RoutePlan where
  segments : List RouteSegment
  total_fuel : Nat
  total_seconds : Nat
  feasible : Bool
  reason : String := ""
deriving DecidableEq, Repr

/-- Seconds per intermediate refueling stop (`REFUEL_STOP_OVERHEAD`). -/
def REFUEL_STOP_OVERHEAD : Nat := 30

/-- One candidate check of the best-waypoint selection loop in `plan_multihop`
(router.py lines 272-286). The accumulator carries the best waypoint so far
with its coordinates, and the best (squared) remaining distance, seeded with
the current distance to the destination so only strict progress is accepted.
Skips visited or unknown waypoints and waypoints out of single-tank range. -/
def pickStep (coords : List (String × Int × Int)) (visited : List String)
    (cx cy dx dy : Int) (fuel_capacity : Nat) (mode : FlightMode)
    (acc : Option (String × Int × Int) × Nat) (wp_sym : String) :
    Option (String × Int × Int) × Nat :=
  if wp_sym ∈ visited then acc
  else
    match dget wp_sym coords with
    | none => acc
    | some (wx, wy) =>
        if fuel_capacity < fuelCostSq (distSq cx cy wx wy) mode then acc
        else
          let remaining := distSq wx wy dx dy
          if remaining < acc.2 then (some (wp_sym, wx, wy), remaining) else acc

/-- The bounded greedy loop of `plan_multihop` (router.py lines 249-304).
`hops` counts the remaining iterations of `for _ in range(max_hops)`; the
current waypoint's coordinates are threaded along with its symbol (the source
re-reads them from `coords`, where they are unchanged). -/
def multihopLoop (coords : List (String × Int × Int)) (fuel_waypoints : List String)
    (destination : String) (dx dy : Int) (fuel_capacity : Nat) (mode : FlightMode)
    (tt : Nat → Nat) :
    Nat → String → Int → Int → List String → List RouteSegment → RoutePlan
  | 0, _, _, _, _, _ =>
      { segments := [], total_fuel := 0, total_seconds := 0, feasible := false,
        reason := "Exceeded max hops (" ++ toString (fuel_waypoints.length + 1) ++
          ") — route infeasible" }
  | hops + 1, current, cx, cy, visited, segments =>
      let dd := distSq cx cy dx dy
      if fuelCostSq dd mode ≤ fuel_capacity then
        let segs := segments ++
          [{ origin := current, destination := destination, dist2 := dd,
             flight_mode := mode, fuel_cost := fuelCostSq dd mode, travel_seconds := tt dd }]
        { segments := segs,
          total_fuel := (segs.map (·.fuel_cost)).sum,
          total_seconds := (segs.map (·.travel_seconds)).sum +
            (segs.length - 1) * REFUEL_STOP_OVERHEAD,
          feasible := true }
      else
        match fuel_waypoints.foldl (pickStep coords visited cx cy dx dy fuel_capacity mode)
            (none, dd) with
        | (none, _) =>
            { segments := [], total_fuel := 0, total_seconds := 0, feasible := false,
              reason := "No reachable fuel waypoint makes progress from " ++ current ++
                " toward " ++ destination }
        | (some (wp, wx, wy), _) =>
            multihopLoop coords fuel_waypoints destination dx dy fuel_capacity mode tt
              hops wp wx wy (visited ++ [wp])
              (segments ++
                [{ origin := current, destination := wp, dist2 := distSq cx cy wx wy,
                   flight_mode := mode, fuel_cost := fuelCostSq (distSq cx cy wx wy) mode,
                   travel_seconds := tt (distSq cx cy wx wy) }])

/-- `plan_multihop` (router.py lines 217-304). `tt` is the travel-time
function of the (squared) distance for the given speed and mode: it models
`travel_time(dist, speed, mode)`, whose float rounding only flows into the
recorded per-segment seconds and their sum, never into a decision. -/
def plan_multihop (coords : List (String × Int × Int)) (fuel_waypoints : List String)
    (origin destination : String) (fuel_capacity : Nat) (mode : FlightMode)
    (tt : Nat → Nat) : RoutePlan :=
  if origin = destination then
    { segments := [], total_fuel := 0, total_seconds := 0, feasible := true }
  else
    match dget origin coords, dget destination coords with
    | some (ox, oy), some (dx, dy) =>
        multihopLoop coords fuel_waypoints destination dx dy fuel_capacity mode tt
          (fuel_waypoints.length + 1) origin ox oy [origin] []
    | _, _ =>
        { segments := [], total_fuel := 0, total_seconds := 0, feasible := false,
          reason := "Unknown coordinates for " ++ origin ++ " or " ++ destination }

/-! ### fleet/commander.py and fleet/ship_agent.py — crash handling -/

/-- Restart budget per agent (`MAX_RESTARTS` in commander.py). -/
def MAX_RESTARTS : Nat := 5

/-- Backoff before each restart (`RESTART_BACKOFF`). -/
def RESTART_BACKOFF : List Nat := [10, 30, 60, 120, 300]

/-- The slice of `ShipAgent` state the crash handler reads and writes:
mission identity, restart counter, and whether a task handle is held. -/
structure AgentState where
  mission : MissionType
  restart_count : Nat
  has_task : Bool
deriving DecidableEq, Repr

/-- What one `_handle_crash` call did: parked the ship, dropped the handle on
shutdown after sleeping, or slept `backoff` seconds and relaunched. -/
inductive CrashOutcome where
  | parked
  | dropped (backoff : Nat)
  | restarted (backoff : Nat)
deriving DecidableEq, Repr

/-- `ShipAgent.relaunch` followed by `launch` (ship_agent.py lines 38-81):
increments the restart counter; the new task exists unless the mission is
IDLE or unregistered (`registered` says the mission has a coroutine). -/
def ShipAgent.relaunch (a : AgentState) (registered : Bool) : AgentState :=
  { a with
    restart_count := a.restart_count + 1,
    has_task := a.mission ≠ .idle && registered }

/-- `FleetCommander._handle_crash` (commander.py lines 371-415) for a known
agent: park at or above `MAX_RESTARTS`, else sleep the indexed backoff, then
(unless shutdown fired during the sleep) relaunch. Returns the agent state
after the call together with the observed outcome. -/
def FleetCommander.handle_crash (a : AgentState) (shutdown : Bool) (registered : Bool) :
    AgentState × CrashOutcome :=
  if MAX_RESTARTS ≤ a.restart_count then
    ({ a with mission := .idle, has_task := false }, .parked)
  else
    let backoff := RESTART_BACKOFF.getD (min a.restart_count (RESTART_BACKOFF.length - 1)) 0
    if shutdown then ({ a with has_task := false }, .dropped backoff)
    else (ShipAgent.relaunch a registered, .restarted backoff)

/-- The outcomes of `n` consecutive crash events of one repeatedly crashing
mission (no shutdown, coroutine registered), oldest first. -/
def crashOutcomes (a : AgentState) : Nat → List CrashOutcome
  | 0 => []
  | n + 1 =>
      let (a', outcome) := FleetCommander.handle_crash a false true
      outcome :: crashOutcomes a' n

/-- The agent state after `n` consecutive crash events (no shutdown,
coroutine registered). -/
def crashState (a : AgentState) : Nat → AgentState
  | 0 => a
  | n + 1 => crashState (FleetCommander.handle_crash a false true).1 n

/-! ### client.py — response handling of SpaceTradersClient._request -/

/-- Retry budget of the API client (`SpaceTradersClient.MAX_RETRIES`). -/
def SpaceTradersClient.MAX_RETRIES : Nat := 5

/-- Indexed retry backoff of the API client (`BACKOFF_SCHEDULE`). -/
def SpaceTradersClient.BACKOFF_SCHEDULE : List Nat := [5, 10, 20, 40, 60]

/-- The `error` payload of a response body: the API sometimes returns a plain
string, else a dict whose `code` key may be absent. -/
inductive ErrorPayload where
  | str (message : String)
  | obj (code : Option Nat) (message : String)
deriving DecidableEq, Repr

/-- What `_request` does after receiving a response. -/
inductive RequestOutcome where
  | success
  | retry (wait : Nat)
  | apiError (code : Nat)
  | raiseStatus
deriving DecidableEq, Repr

/-- The application error code: `err.get("code", response.status_code)`, with
a bare-string payload normalized to the HTTP status. -/
def ErrorPayload.appCode (e : ErrorPayload) (status : Nat) : Nat :=
  match e with
  | .str _ => status
  | .obj c _ => c.getD status

/-- Response handling of `SpaceTradersClient._request` (client.py lines
113-159): the 204 shortcut, then classification of an error payload — retry
with the rate-limit rule on code-or-status 429 (honoring a numeric
`retry-after` header; an absent or empty header falls back to the schedule),
retry on code 3000 or status >= 500, else a typed ApiError — and finally
`raise_for_status` for error-free non-2xx bodies. The transport-error retry
and circuit breaker happen before the response exists and are not modeled. -/
def SpaceTradersClient.handleResponse :
    Nat → Option ErrorPayload → Option Nat → Nat → RequestOutcome
  | status, some err, retry_after, rtry =>
      if status = 204 then .success
      else if (err.appCode status = 429 ∨ status = 429) ∧
          rtry < SpaceTradersClient.MAX_RETRIES then
        .retry (match retry_after with
          | some k => k
          | none => SpaceTradersClient.BACKOFF_SCHEDULE.getD rtry 0)
      else if (err.appCode status = 3000 ∨ 500 ≤ status) ∧
          rtry < SpaceTradersClient.MAX_RETRIES then
        .retry (SpaceTradersClient.BACKOFF_SCHEDULE.getD rtry 0)
      else .apiError (err.appCode status)
  | status, none, _, _ =>
      if status = 204 then .success
      else if 200 ≤ status ∧ status < 300 then .success
      else .raiseStatus

/-! ### missions/contractor.py — _evaluate_profitability -/

/-- One delivery line of a contract's terms. -/
structure DeliverLine where
  trade_symbol : String
  units_required : Int
  units_fulfilled : Int
  destination_symbol : String
deriving DecidableEq, Repr

/-- Contract payment terms. -/
structure PaymentTerms where
  on_accepted : Int
  on_fulfilled : Int
deriving DecidableEq, Repr

/-- The delivery-line loop of `_evaluate_profitability` (contractor.py lines
156-178): accumulate the cheapest-market cost of every line with units
remaining; a line whose good has no cached buy market returns
`(False, 0, "No market sells ...")` immediately. `find_best_buy` is the
market-store query, abstracted as good -> cheapest purchase price. -/
def evalProfitLoop (find_best_buy : String → Option Int) (payment : PaymentTerms) :
    List DeliverLine → Int → List String → Bool × Int × String
  | [], total_cost, details =>
      let total_payment := payment.on_accepted + payment.on_fulfilled
      let profit := total_payment - total_cost
      (decide (0 < profit), profit,
        "Payment: " ++ toString total_payment ++ " — Cost: " ++ toString total_cost ++
          " — Profit: " ++ toString profit ++ " | " ++ String.intercalate ", " details.reverse)
  | d :: rest, total_cost, details =>
      let remaining := d.units_required - d.units_fulfilled
      if remaining ≤ 0 then evalProfitLoop find_best_buy payment rest total_cost details
      else
        match find_best_buy d.trade_symbol with
        | none => (false, 0, "No market sells " ++ d.trade_symbol)
        | some price =>
            evalProfitLoop find_best_buy payment rest (total_cost + price * remaining)
              ((toString remaining ++ "× " ++ d.trade_symbol ++ " @ " ++ toString price ++
                "/unit") :: details)

/-- `_evaluate_profitability` (contractor.py lines 144-178): returns
`(profitable, estimated_profit, explanation)`. -/
def _evaluate_profitability (deliver : List DeliverLine)
    (find_best_buy : String → Option Int) (payment : PaymentTerms) :
    Bool × Int × String :=
  evalProfitLoop find_best_buy payment deliver 0 []

/-! ## Infrastructure lemmas -/

theorem dget_dinsert {α : Type} (k k' : String) (v : α) (l : List (String × α)) :
    dget k (dinsert k' v l) = if k' = k then some v else dget k l := by
  induction l with
  | nil => simp [dinsert, dget]
  | cons h t ih =>
    obtain ⟨hk, hv⟩ := h
    by_cases h1 : hk = k' <;> by_cases h2 : k' = k <;>
      simp_all [dinsert, dget]

theorem dget_dinsert_self {α : Type} (k : String) (v : α) (l : List (String × α)) :
    dget k (dinsert k v l) = some v := by
  simp [dget_dinsert]

theorem dget_dinsert_other {α : Type} {k k' : String} (h : k' ≠ k) (v : α)
    (l : List (String × α)) : dget k (dinsert k' v l) = dget k l := by
  simp [dget_dinsert, h]

theorem dget_eq_none_iff {α : Type} (k : String) (l : List (String × α)) :
    dget k l = none ↔ k ∉ l.map Prod.fst := by
  induction l with
  | nil => simp [dget]
  | cons h t ih =>
    obtain ⟨hk, hv⟩ := h
    by_cases hkk : hk = k
    · subst hkk; simp [dget]
    · simp only [dget, if_neg hkk, ih, List.map_cons, List.mem_cons]
      constructor
      · rintro h (h1 | h1)
        · exact hkk h1.symm
        · exact h h1
      · intro h hmem
        exact h (Or.inr hmem)

theorem dinsert_eq_append {α : Type} {k : String} (v : α) {l : List (String × α)}
    (h : k ∉ l.map Prod.fst) : dinsert k v l = l ++ [(k, v)] := by
  induction l with
  | nil => simp [dinsert]
  | cons hd t ih =>
    obtain ⟨hk, hv⟩ := hd
    simp only [List.map_cons, List.mem_cons] at h
    push_neg at h
    have hne : ¬ hk = k := fun hh => h.1 hh.symm
    simp [dinsert, hne, ih h.2]

/-- The partition step either writes `routed` directly or appends the ship to
the probe / cargo pool according to its category. -/
theorem partitionStep_eq (skip_ships : List String) (overrides : List (String × String))
    (acc : List (String × ShipAssignment) × List ShipCapability × List ShipCapability)
    (s : ShipCapability) :
    partitionStep skip_ships overrides acc s =
      match routed skip_ships overrides s with
      | some a => (dinsert s.symbol a acc.1, acc.2.1, acc.2.2)
      | none =>
          if s.category = "probe" then (acc.1, acc.2.1 ++ [s], acc.2.2)
          else (acc.1, acc.2.1, acc.2.2 ++ [s]) := by
  obtain ⟨plan, probes, cargo⟩ := acc
  rw [partitionStep, routed]
  by_cases hsk : s.symbol ∈ skip_ships
  · simp [hsk]
  · simp only [if_neg hsk]
    cases dget s.symbol overrides with
    | some ov => rfl
    | none =>
      by_cases h1 : s.category = "disabled"
      · simp [h1]
      · by_cases h2 : s.category = "sentinel"
        · simp [h1, h2]
        · by_cases h3 : s.category = "probe"
          · simp [h1, h2, h3]
          · by_cases h4 : s.category = "ship" <;> simp [h1, h2, h3, h4]

/-- A pooled ship is exactly a relevant probe / cargo ship. -/
theorem routed_none_iff (skip_ships : List String) (overrides : List (String × String))
    (s : ShipCapability) :
    routed skip_ships overrides s = none ↔
      relevantB skip_ships overrides s = true ∧
        (s.category = "probe" ∨ s.category = "ship") := by
  rw [routed, relevantB]
  by_cases hsk : s.symbol ∈ skip_ships
  · simp [hsk]
  · simp only [if_neg hsk]
    cases hov : dget s.symbol overrides with
    | some ov => simp [hov]
    | none =>
      simp only [hov, Option.isNone_none]
      by_cases h1 : s.category = "disabled"
      · simp [h1, hsk]
      · by_cases h2 : s.category = "sentinel"
        · simp [h1, h2, hsk]
        · by_cases h3 : s.category = "probe"
          · simp [h1, h2, h3, hsk]
          · by_cases h4 : s.category = "ship" <;> simp [h1, h2, h3, h4, hsk]

theorem partition_probes (skip_ships : List String) (overrides : List (String × String)) :
    ∀ (ships : List ShipCapability)
      (acc : List (String × ShipAssignment) × List ShipCapability × List ShipCapability),
    (ships.foldl (partitionStep skip_ships overrides) acc).2.1 =
      acc.2.1 ++ probesOf skip_ships overrides ships := by
  intro ships
  induction ships with
  | nil => intro acc; simp [probesOf]
  | cons s t ih =>
    intro acc
    rw [List.foldl_cons, ih, partitionStep_eq]
    rcases hr : routed skip_ships overrides s with _ | a
    · have hrel := (routed_none_iff skip_ships overrides s).mp hr
      by_cases h3 : s.category = "probe"
      · simp [h3, probesOf, hrel.1]
      · have h4 : s.category = "ship" := by tauto
        simp [h3, h4, probesOf, hrel.1]
    · have : ¬ (relevantB skip_ships overrides s = true ∧
          (s.category = "probe" ∨ s.category = "ship")) := by
        rw [← routed_none_iff skip_ships overrides s, hr]; simp
      simp only [probesOf, List.filter_cons]
      by_cases hrel : relevantB skip_ships overrides s = true
      · have hcat : ¬ s.category = "probe" := fun hc => this ⟨hrel, Or.inl hc⟩
        simp [hrel, hcat, probesOf]
      · simp only [Bool.not_eq_true] at hrel
        simp [hrel, probesOf]

theorem partition_cargo (skip_ships : List String) (overrides : List (String × String)) :
    ∀ (ships : List ShipCapability)
      (acc : List (String × ShipAssignment) × List ShipCapability × List ShipCapability),
    (ships.foldl (partitionStep skip_ships overrides) acc).2.2 =
      acc.2.2 ++ cargoOf skip_ships overrides ships := by
  intro ships
  induction ships with
  | nil => intro acc; simp [cargoOf]
  | cons s t ih =>
    intro acc
    rw [List.foldl_cons, ih, partitionStep_eq]
    rcases hr : routed skip_ships overrides s with _ | a
    · have hrel := (routed_none_iff skip_ships overrides s).mp hr
      by_cases h3 : s.category = "probe"
      · have hcat : ¬ s.category = "ship" := by rw [h3]; decide
        simp [h3, cargoOf, hcat]
      · have h4 : s.category = "ship" := by tauto
        simp [h3, h4, cargoOf, hrel.1]
    · have : ¬ (relevantB skip_ships overrides s = true ∧
          (s.category = "probe" ∨ s.category = "ship")) := by
        rw [← routed_none_iff skip_ships overrides s, hr]; simp
      simp only [cargoOf, List.filter_cons]
      by_cases hrel : relevantB skip_ships overrides s = true
      · have hcat : ¬ s.category = "ship" := fun hc => this ⟨hrel, Or.inr hc⟩
        simp [hrel, hcat, cargoOf]
      · simp only [Bool.not_eq_true] at hrel
        simp [hrel, cargoOf]

theorem partition_plan_stable (skip_ships : List String) (overrides : List (String × String)) :
    ∀ (ships : List ShipCapability)
      (acc : List (String × ShipAssignment) × List ShipCapability × List ShipCapability)
      (sym : String), sym ∉ ships.map (·.symbol) →
    dget sym (ships.foldl (partitionStep skip_ships overrides) acc).1 = dget sym acc.1 := by
  intro ships
  induction ships with
  | nil => intro acc sym _; rfl
  | cons s t ih =>
    intro acc sym hsym
    simp only [List.map_cons, List.mem_cons] at hsym
    push_neg at hsym
    rw [List.foldl_cons, ih _ _ hsym.2, partitionStep_eq]
    rcases routed skip_ships overrides s with _ | a
    · by_cases h3 : s.category = "probe" <;> simp [h3]
    · exact dget_dinsert_other (fun h => hsym.1 h.symm) a acc.1

theorem partition_plan_routed (skip_ships : List String) (overrides : List (String × String)) :
    ∀ (ships : List ShipCapability)
      (acc : List (String × ShipAssignment) × List ShipCapability × List ShipCapability)
      (x : ShipCapability) (a : ShipAssignment),
    x ∈ ships → (ships.map (·.symbol)).Nodup → routed skip_ships overrides x = some a →
    dget x.symbol (ships.foldl (partitionStep skip_ships overrides) acc).1 = some a := by
  intro ships
  induction ships with
  | nil => intro acc x a hx; simp at hx
  | cons s t ih =>
    intro acc x a hx hnd hr
    simp only [List.map_cons, List.nodup_cons] at hnd
    rcases List.mem_cons.mp hx with rfl | hmem
    · rw [List.foldl_cons, partition_plan_stable _ _ _ _ _ hnd.1, partitionStep_eq, hr]
      exact dget_dinsert_self x.symbol a acc.1
    · rw [List.foldl_cons]
      exact ih (partitionStep skip_ships overrides acc s) x a hmem hnd.2 hr

theorem partition_plan_pool (skip_ships : List String) (overrides : List (String × String)) :
    ∀ (ships : List ShipCapability)
      (acc : List (String × ShipAssignment) × List ShipCapability × List ShipCapability)
      (x : ShipCapability),
    x ∈ ships → (ships.map (·.symbol)).Nodup → routed skip_ships overrides x = none →
    dget x.symbol (ships.foldl (partitionStep skip_ships overrides) acc).1 =
      dget x.symbol acc.1 := by
  intro ships
  induction ships with
  | nil => intro acc x hx; simp at hx
  | cons s t ih =>
    intro acc x hx hnd hr
    simp only [List.map_cons, List.nodup_cons] at hnd
    rcases List.mem_cons.mp hx with rfl | hmem
    · rw [List.foldl_cons, partition_plan_stable _ _ _ _ _ hnd.1, partitionStep_eq, hr]
      by_cases h3 : x.category = "probe" <;> simp [h3]
    · have hne : s.symbol ≠ x.symbol := by
        intro h
        exact hnd.1 (h ▸ List.mem_map.mpr ⟨x, hmem, rfl⟩)
      rw [List.foldl_cons, ih _ x hmem hnd.2 hr, partitionStep_eq]
      rcases routed skip_ships overrides s with _ | a
      · by_cases h3 : s.category = "probe" <;> simp [h3]
      · exact dget_dinsert_other hne a acc.1

theorem partition_plan_keys (skip_ships : List String) (overrides : List (String × String)) :
    ∀ (ships : List ShipCapability)
      (acc : List (String × ShipAssignment) × List ShipCapability × List ShipCapability)
      (sym : String),
    (dget sym (ships.foldl (partitionStep skip_ships overrides) acc).1).isSome = true ↔
      ((dget sym acc.1).isSome = true ∨
        ∃ x ∈ ships, x.symbol = sym ∧ (routed skip_ships overrides x).isSome = true) := by
  intro ships
  induction ships with
  | nil => intro acc sym; simp
  | cons s t ih =>
    intro acc sym
    rw [List.foldl_cons, ih, partitionStep_eq]
    rcases hr : routed skip_ships overrides s with _ | a
    · have hstep : (match (none : Option ShipAssignment) with
          | some a => (dinsert s.symbol a acc.1, acc.2.1, acc.2.2)
          | none =>
              if s.category = "probe" then (acc.1, acc.2.1 ++ [s], acc.2.2)
              else (acc.1, acc.2.1, acc.2.2 ++ [s])).1 = acc.1 := by
        by_cases h3 : s.category = "probe" <;> simp [h3]
      rw [hstep]
      constructor
      · rintro (h | ⟨x, hx, hsx, hsome⟩)
        · exact Or.inl h
        · exact Or.inr ⟨x, List.mem_cons_of_mem s hx, hsx, hsome⟩
      · rintro (h | ⟨x, hx, hsx, hsome⟩)
        · exact Or.inl h
        · rcases List.mem_cons.mp hx with rfl | hmem
          · rw [hr] at hsome; simp at hsome
          · exact Or.inr ⟨x, hmem, hsx, hsome⟩
    · have hmred : (dget sym (match some a with
          | some a => (dinsert s.symbol a acc.1, acc.2.1, acc.2.2)
          | none =>
              if s.category = "probe" then (acc.1, acc.2.1 ++ [s], acc.2.2)
              else (acc.1, acc.2.1, acc.2.2 ++ [s])).1) =
          dget sym (dinsert s.symbol a acc.1) := rfl
      rw [hmred]
      by_cases hsym : s.symbol = sym
      · constructor
        · intro _
          exact Or.inr ⟨s, List.mem_cons_self s t, hsym, by rw [hr]; rfl⟩
        · intro _
          left
          subst hsym
          rw [dget_dinsert_self]
          rfl
      · rw [dget_dinsert_other hsym a acc.1]
        constructor
        · rintro (h | ⟨x, hx, hsx, hsome⟩)
          · exact Or.inl h
          · exact Or.inr ⟨x, List.mem_cons_of_mem s hx, hsx, hsome⟩
        · rintro (h | ⟨x, hx, hsx, hsome⟩)
          · exact Or.inl h
          · rcases List.mem_cons.mp hx with rfl | hmem
            · exact absurd hsx hsym
            · exact Or.inr ⟨x, hmem, hsx, hsome⟩

theorem assignAll_stable (m : MissionType) :
    ∀ (l : List ShipCapability) (p : List (String × ShipAssignment)) (sym : String),
    sym ∉ l.map (·.symbol) → dget sym (assignAll m l p) = dget sym p := by
  intro l
  induction l with
  | nil => intro p sym _; rfl
  | cons s t ih =>
    intro p sym hsym
    simp only [List.map_cons, List.mem_cons] at hsym
    push_neg at hsym
    rw [assignAll, List.foldl_cons, ← assignAll]
    rw [ih _ _ hsym.2]
    exact dget_dinsert_other (fun h => hsym.1 h.symm) _ p

theorem assignAll_mem (m : MissionType) :
    ∀ (l : List ShipCapability) (p : List (String × ShipAssignment)) (x : ShipCapability),
    x ∈ l → (l.map (·.symbol)).Nodup →
    dget x.symbol (assignAll m l p) = some ⟨m, []⟩ := by
  intro l
  induction l with
  | nil => intro p x hx; simp at hx
  | cons s t ih =>
    intro p x hx hnd
    simp only [List.map_cons, List.nodup_cons] at hnd
    rw [assignAll, List.foldl_cons, ← assignAll]
    rcases List.mem_cons.mp hx with rfl | hmem
    · rw [assignAll_stable _ _ _ _ hnd.1]
      exact dget_dinsert_self x.symbol _ p
    · exact ih _ x hmem hnd.2

theorem assignAll_keys (m : MissionType) :
    ∀ (l : List ShipCapability) (p : List (String × ShipAssignment)) (sym : String),
    (dget sym (assignAll m l p)).isSome = true ↔
      sym ∈ l.map (·.symbol) ∨ (dget sym p).isSome = true := by
  intro l
  induction l with
  | nil => intro p sym; simp [assignAll]
  | cons s t ih =>
    intro p sym
    rw [assignAll, List.foldl_cons, ← assignAll, ih]
    by_cases hsym : s.symbol = sym
    · subst hsym
      rw [dget_dinsert_self]
      simp
    · rw [dget_dinsert_other hsym _ p]
      simp only [List.map_cons, List.mem_cons]
      constructor
      · rintro (h | h)
        · exact Or.inl (Or.inr h)
        · exact Or.inr h
      · rintro ((h | h) | h)
        · exact absurd h.symm hsym
        · exact Or.inl h
        · exact Or.inr h

theorem notmem_symbols_of_subset {x : String} {l l' : List ShipCapability}
    (hsub : l' ⊆ l) (h : x ∉ l.map (·.symbol)) : x ∉ l'.map (·.symbol) := by
  intro hm
  obtain ⟨y, hy, rfl⟩ := List.mem_map.mp hm
  exact h (List.mem_map.mpr ⟨y, hsub hy, rfl⟩)

theorem notmem_filter_symbols {ships : List ShipCapability}
    (hnd : (ships.map (·.symbol)).Nodup) {x : ShipCapability} (hx : x ∈ ships)
    {p : ShipCapability → Bool} (hpx : ¬ p x = true) :
    x.symbol ∉ ((ships.filter p).map (·.symbol)) := by
  intro hmem
  obtain ⟨y, hy, hsy⟩ := List.mem_map.mp hmem
  have hyx : y = x :=
    List.inj_on_of_nodup_map hnd (List.mem_of_mem_filter hy) hx hsy
  subst hyx
  exact hpx (List.mem_filter.mp hy).2

theorem filter_symbols_nodup {ships : List ShipCapability}
    (hnd : (ships.map (·.symbol)).Nodup) (p : ShipCapability → Bool) :
    ((ships.filter p).map (·.symbol)).Nodup :=
  hnd.sublist ((List.filter_sublist ships).map (·.symbol))

/-- Unfolds `FleetStrategy.evaluate` with the partition pools rewritten to
their filter characterizations. -/
theorem evaluate_unfold (capital : CapitalPolicy) (credits : Int)
    (ships : List ShipCapability) (cur : List (String × MissionType))
    (hac cp gns mra : Bool) (sk : List String) (ov : List (String × String)) :
    FleetStrategy.evaluate capital credits ships cur hac cp gns mra sk ov =
      (let plan1 := assignAll .scan (probesOf sk ov ships)
         (ships.foldl (partitionStep sk ov) ([], [], [])).1
       if credits < capital.idle_threshold then
         { assignments := assignAll .idle (cargoOf sk ov ships) plan1 }
       else
         finishPhase (mra && decide (capital.trade_min ≤ credits))
           (contractPhase hac cp
             (gatePhase capital credits gns plan1
               (List.insertionSort cargoRel (cargoOf sk ov ships))))) := by
  have h1 := partition_probes sk ov ships ([], [], [])
  have h2 := partition_cargo sk ov ships ([], [], [])
  simp only [List.nil_append] at h1 h2
  rw [FleetStrategy.evaluate]
  simp only [h1, h2]

/-- The gate phase leaves every symbol outside the sorted pool untouched. -/
theorem gatePhase_fst_stable (capital : CapitalPolicy) (credits : Int) (gns : Bool)
    (plan1 : List (String × ShipAssignment)) (sorted : List ShipCapability)
    (sym : String) (hsym : sym ∉ sorted.map (·.symbol)) :
    dget sym (gatePhase capital credits gns plan1 sorted).1 = dget sym plan1 := by
  rw [gatePhase.eq_def]
  by_cases hgate : (gns && decide (capital.gate_floor ≤ credits)) = true
  · rw [if_pos hgate]
    rcases sorted with _ | ⟨g, rest⟩
    · rfl
    · have hg : g.symbol ≠ sym := by
        intro h
        exact hsym (h ▸ List.mem_map.mpr ⟨g, List.mem_cons_self g rest, rfl⟩)
      exact dget_dinsert_other hg _ plan1
  · rw [if_neg hgate]

/-- The gate phase's remaining pool is a subset of the sorted pool. -/
theorem gatePhase_snd_subset (capital : CapitalPolicy) (credits : Int) (gns : Bool)
    (plan1 : List (String × ShipAssignment)) (sorted : List ShipCapability) :
    (gatePhase capital credits gns plan1 sorted).2 ⊆ sorted := by
  rw [gatePhase.eq_def]
  by_cases hgate : (gns && decide (capital.gate_floor ≤ credits)) = true
  · rw [if_pos hgate]
    rcases sorted with _ | ⟨g, rest⟩
    · exact fun y hy => hy
    · exact fun y hy => List.mem_cons_of_mem g hy
  · rw [if_neg hgate]
    exact fun y hy => hy

/-- The contract phase leaves every symbol outside its pool untouched. -/
theorem contractPhase_fst_stable (hac cp : Bool)
    (st : List (String × ShipAssignment) × List ShipCapability)
    (sym : String) (hsym : sym ∉ st.2.map (·.symbol)) :
    dget sym (contractPhase hac cp st).1 = dget sym st.1 := by
  rw [contractPhase]
  by_cases hcc : (hac && cp) = true
  · rw [if_pos hcc]
    exact assignAll_stable _ _ _ _
      (notmem_symbols_of_subset (List.take_subset 2 st.2) hsym)
  · rw [if_neg hcc]

/-- The contract phase's remaining pool is a subset of its input pool. -/
theorem contractPhase_snd_subset (hac cp : Bool)
    (st : List (String × ShipAssignment) × List ShipCapability) :
    (contractPhase hac cp st).2 ⊆ st.2 := by
  rw [contractPhase]
  by_cases hcc : (hac && cp) = true
  · rw [if_pos hcc]
    exact List.drop_subset 2 st.2
  · rw [if_neg hcc]
    exact fun y hy => hy

/-- The finish phase leaves every symbol outside its pool untouched. -/
theorem finishPhase_stable (trade_on : Bool)
    (st : List (String × ShipAssignment) × List ShipCapability)
    (sym : String) (hsym : sym ∉ st.2.map (·.symbol)) :
    dget sym (finishPhase trade_on st).assignments = dget sym st.1 :=
  assignAll_stable _ _ _ _ hsym

/-- A ship the partition loop assigns directly (skipped, overridden, disabled,
sentinel, or of unknown category) keeps that assignment in the final plan,
whatever the flags and credit level. -/
theorem evaluate_get_routed (capital : CapitalPolicy) (credits : Int)
    (ships : List ShipCapability) (cur : List (String × MissionType))
    (hac cp gns mra : Bool) (sk : List String) (ov : List (String × String))
    (hnd : (ships.map (·.symbol)).Nodup) (x : ShipCapability) (a : ShipAssignment)
    (hx : x ∈ ships) (hr : routed sk ov x = some a) :
    dget x.symbol
      (FleetStrategy.evaluate capital credits ships cur hac cp gns mra sk ov).assignments =
      some a := by
  have hnone : ¬ (relevantB sk ov x = true ∧ (x.category = "probe" ∨ x.category = "ship")) := by
    intro hcontra
    rw [(routed_none_iff sk ov x).mpr hcontra] at hr
    cases hr
  have hnp : ¬ (relevantB sk ov x && (x.category == "probe")) = true := by
    intro hb
    simp only [Bool.and_eq_true, beq_iff_eq] at hb
    exact hnone ⟨hb.1, Or.inl hb.2⟩
  have hnc : ¬ (relevantB sk ov x && (x.category == "ship")) = true := by
    intro hb
    simp only [Bool.and_eq_true, beq_iff_eq] at hb
    exact hnone ⟨hb.1, Or.inr hb.2⟩
  have hxp : x.symbol ∉ (probesOf sk ov ships).map (·.symbol) :=
    notmem_filter_symbols hnd hx hnp
  have hxc : x.symbol ∉ (cargoOf sk ov ships).map (·.symbol) :=
    notmem_filter_symbols hnd hx hnc
  have hxs : x.symbol ∉ (List.insertionSort cargoRel (cargoOf sk ov ships)).map (·.symbol) :=
    notmem_symbols_of_subset (List.perm_insertionSort cargoRel _).subset hxc
  have hplan1 : dget x.symbol
      (assignAll .scan (probesOf sk ov ships)
        (ships.foldl (partitionStep sk ov) ([], [], [])).1) = some a := by
    rw [assignAll_stable _ _ _ _ hxp]
    exact partition_plan_routed sk ov ships _ x a hx hnd hr
  simp only [evaluate_unfold]
  by_cases hb : credits < capital.idle_threshold
  · simp only [if_pos hb]
    rw [assignAll_stable _ _ _ _ hxc]
    exact hplan1
  · simp only [if_neg hb]
    have hxg : x.symbol ∉ ((gatePhase capital credits gns
        (assignAll .scan (probesOf sk ov ships)
          (ships.foldl (partitionStep sk ov) ([], [], [])).1)
        (List.insertionSort cargoRel (cargoOf sk ov ships))).2.map (·.symbol)) :=
      notmem_symbols_of_subset (gatePhase_snd_subset _ _ _ _ _) hxs
    rw [finishPhase_stable _ _ _
        (notmem_symbols_of_subset (contractPhase_snd_subset _ _ _) hxg),
      contractPhase_fst_stable _ _ _ _ hxg,
      gatePhase_fst_stable _ _ _ _ _ _ hxs]
    exact hplan1

/-- A relevant probe is assigned SCAN in the final plan, in both credit
branches. -/
theorem evaluate_get_probe (capital : CapitalPolicy) (credits : Int)
    (ships : List ShipCapability) (cur : List (String × MissionType))
    (hac cp gns mra : Bool) (sk : List String) (ov : List (String × String))
    (hnd : (ships.map (·.symbol)).Nodup) (x : ShipCapability)
    (hx : x ∈ probesOf sk ov ships) :
    dget x.symbol
      (FleetStrategy.evaluate capital credits ships cur hac cp gns mra sk ov).assignments =
      some ⟨.scan, []⟩ := by
  have hxShips : x ∈ ships := List.mem_of_mem_filter hx
  have hfilt : (relevantB sk ov x && (x.category == "probe")) = true :=
    (List.mem_filter.mp hx).2
  have hcatp : x.category = "probe" := by
    simp only [Bool.and_eq_true, beq_iff_eq] at hfilt
    exact hfilt.2
  have hnc : ¬ (relevantB sk ov x && (x.category == "ship")) = true := by
    simp [hcatp]
  have hxc : x.symbol ∉ (cargoOf sk ov ships).map (·.symbol) :=
    notmem_filter_symbols hnd hxShips hnc
  have hxs : x.symbol ∉ (List.insertionSort cargoRel (cargoOf sk ov ships)).map (·.symbol) :=
    notmem_symbols_of_subset (List.perm_insertionSort cargoRel _).subset hxc
  have hplan1 : dget x.symbol (assignAll .scan (probesOf sk ov ships)
      (ships.foldl (partitionStep sk ov) ([], [], [])).1) = some ⟨.scan, []⟩ :=
    assignAll_mem .scan _ _ x hx (filter_symbols_nodup hnd _)
  simp only [evaluate_unfold]
  by_cases hb : credits < capital.idle_threshold
  · simp only [if_pos hb]
    rw [assignAll_stable _ _ _ _ hxc]
    exact hplan1
  · simp only [if_neg hb]
    have hxg : x.symbol ∉ ((gatePhase capital credits gns
        (assignAll .scan (probesOf sk ov ships)
          (ships.foldl (partitionStep sk ov) ([], [], [])).1)
        (List.insertionSort cargoRel (cargoOf sk ov ships))).2.map (·.symbol)) :=
      notmem_symbols_of_subset (gatePhase_snd_subset _ _ _ _ _) hxs
    rw [finishPhase_stable _ _ _
        (notmem_symbols_of_subset (contractPhase_snd_subset _ _ _) hxg),
      contractPhase_fst_stable _ _ _ _ hxg,
      gatePhase_fst_stable _ _ _ _ _ _ hxs]
    exact hplan1

theorem symbols_nodup_of_sublist {l l' : List ShipCapability} (h : l'.Sublist l)
    (hnd : (l.map (·.symbol)).Nodup) : (l'.map (·.symbol)).Nodup :=
  hnd.sublist (h.map (·.symbol))

theorem take_drop_symbols_disjoint {l : List ShipCapability}
    (hnd : (l.map (·.symbol)).Nodup) (n : Nat) {x : ShipCapability}
    (hx : x ∈ l.take n) : x.symbol ∉ (l.drop n).map (·.symbol) := by
  intro hmem
  have h1 : x.symbol ∈ (l.take n).map (·.symbol) := List.mem_map.mpr ⟨x, hx, rfl⟩
  rw [← List.take_append_drop n l, List.map_append] at hnd
  exact (List.nodup_append.mp hnd).2.2 h1 hmem

/-- The gate phase with the gate flag and floor satisfied pops the head of a
nonempty pool and assigns it GATE_BUILD. -/
theorem gatePhase_pos (capital : CapitalPolicy) (credits : Int) (gns : Bool)
    (plan1 : List (String × ShipAssignment)) (g : ShipCapability)
    (rest : List ShipCapability)
    (h : (gns && decide (capital.gate_floor ≤ credits)) = true) :
    gatePhase capital credits gns plan1 (g :: rest) =
      (dinsert g.symbol ⟨.gate_build, [("capital_floor", capital.gate_floor)]⟩ plan1,
        rest) := by
  rw [gatePhase.eq_def, if_pos h]

/-- The gate phase's remaining pool: the tail exactly when the gate condition
holds and the pool is nonempty. -/
theorem gatePhase_snd_eq (capital : CapitalPolicy) (credits : Int) (gns : Bool)
    (plan1 : List (String × ShipAssignment)) (sorted : List ShipCapability) :
    (gatePhase capital credits gns plan1 sorted).2 =
      if (gns && decide (capital.gate_floor ≤ credits)) && !sorted.isEmpty
      then sorted.tail else sorted := by
  rw [gatePhase.eq_def]
  by_cases h : (gns && decide (capital.gate_floor ≤ credits)) = true
  · rw [if_pos h]
    rcases sorted with _ | ⟨g, rest⟩ <;> simp [h]
  · rw [if_neg h]
    simp only [Bool.not_eq_true] at h
    simp [h]

theorem contractPhase_pos (hac cp : Bool)
    (st : List (String × ShipAssignment) × List ShipCapability)
    (h : (hac && cp) = true) :
    contractPhase hac cp st = (assignAll .contract (st.2.take 2) st.1, st.2.drop 2) := by
  rw [contractPhase, if_pos h]

theorem contractPhase_snd_eq (hac cp : Bool)
    (st : List (String × ShipAssignment) × List ShipCapability) :
    (contractPhase hac cp st).2 = if hac && cp then st.2.drop 2 else st.2 := by
  rw [contractPhase]
  by_cases h : (hac && cp) = true
  · rw [if_pos h, if_pos h]
  · rw [if_neg h, if_neg h]

theorem dget_dinsert_isSome {α : Type} (sym k : String) (v : α) (l : List (String × α)) :
    (dget sym (dinsert k v l)).isSome = true ↔
      k = sym ∨ (dget sym l).isSome = true := by
  rw [dget_dinsert]
  by_cases h : k = sym <;> simp [h]

/-- Keys reachable after the gate phase (in the plan or still in the pool)
are exactly those reachable before. -/
theorem gatePhase_keys (capital : CapitalPolicy) (credits : Int) (gns : Bool)
    (plan1 : List (String × ShipAssignment)) (sorted : List ShipCapability)
    (sym : String) :
    ((dget sym (gatePhase capital credits gns plan1 sorted).1).isSome = true ∨
        sym ∈ (gatePhase capital credits gns plan1 sorted).2.map (·.symbol)) ↔
      ((dget sym plan1).isSome = true ∨ sym ∈ sorted.map (·.symbol)) := by
  rw [gatePhase.eq_def]
  by_cases h : (gns && decide (capital.gate_floor ≤ credits)) = true
  · rw [if_pos h]
    rcases sorted with _ | ⟨g, rest⟩
    · exact Iff.rfl
    · show ((dget sym (dinsert g.symbol _ plan1)).isSome = true ∨ _) ↔ _
      rw [dget_dinsert_isSome]
      simp only [List.map_cons, List.mem_cons]
      tauto
  · rw [if_neg h]

/-- Keys reachable after the contract phase are exactly those reachable
before. -/
theorem contractPhase_keys (hac cp : Bool)
    (st : List (String × ShipAssignment) × List ShipCapability) (sym : String) :
    ((dget sym (contractPhase hac cp st).1).isSome = true ∨
        sym ∈ (contractPhase hac cp st).2.map (·.symbol)) ↔
      ((dget sym st.1).isSome = true ∨ sym ∈ st.2.map (·.symbol)) := by
  rw [contractPhase]
  by_cases h : (hac && cp) = true
  · rw [if_pos h]
    show ((dget sym (assignAll .contract (st.2.take 2) st.1)).isSome = true ∨
        sym ∈ (st.2.drop 2).map (·.symbol)) ↔ _
    rw [assignAll_keys]
    have hsplit : sym ∈ st.2.map (·.symbol) ↔
        sym ∈ (st.2.take 2).map (·.symbol) ∨ sym ∈ (st.2.drop 2).map (·.symbol) := by
      conv_lhs => rw [← List.take_append_drop 2 st.2]
      rw [List.map_append, List.mem_append]
    rw [hsplit]
    tauto
  · rw [if_neg h]

/-- Every ship symbol lands in the probe pool, the cargo pool, or a directly
routed assignment, and those are the only symbols that appear. -/
theorem pools_cover (sk : List String) (ov : List (String × String))
    (ships : List ShipCapability) (sym : String) :
    (sym ∈ (probesOf sk ov ships).map (·.symbol) ∨
      sym ∈ (cargoOf sk ov ships).map (·.symbol) ∨
      (∃ x ∈ ships, x.symbol = sym ∧ (routed sk ov x).isSome = true)) ↔
      sym ∈ ships.map (·.symbol) := by
  constructor
  · rintro (h | h | ⟨x, hx, rfl, _⟩)
    · obtain ⟨y, hy, rfl⟩ := List.mem_map.mp h
      exact List.mem_map.mpr ⟨y, List.mem_of_mem_filter hy, rfl⟩
    · obtain ⟨y, hy, rfl⟩ := List.mem_map.mp h
      exact List.mem_map.mpr ⟨y, List.mem_of_mem_filter hy, rfl⟩
    · exact List.mem_map.mpr ⟨x, hx, rfl⟩
  · intro hmem
    obtain ⟨x, hx, rfl⟩ := List.mem_map.mp hmem
    rcases hr : routed sk ov x with _ | a
    · obtain ⟨hrel, hcat⟩ := (routed_none_iff sk ov x).mp hr
      rcases hcat with hcat | hcat
      · exact Or.inl (List.mem_map.mpr
          ⟨x, List.mem_filter.mpr ⟨hx, by simp [hrel, hcat]⟩, rfl⟩)
      · exact Or.inr (Or.inl (List.mem_map.mpr
          ⟨x, List.mem_filter.mpr ⟨hx, by simp [hrel, hcat]⟩, rfl⟩))
    · exact Or.inr (Or.inr ⟨x, hx, rfl, by rw [hr]; rfl⟩)

/-- The dict built by the changes-loop of `changes_from` over entries with
distinct keys is the filter of the entries whose mission changed. -/
theorem changes_foldl (current : List (String × MissionType)) :
    ∀ (l : List (String × ShipAssignment))
      (acc : List (String × (MissionType × ShipAssignment))),
    (l.map Prod.fst).Nodup → (∀ k ∈ acc.map Prod.fst, k ∉ l.map Prod.fst) →
    l.foldl (fun changes entry =>
        let old := currentGet current entry.1
        if entry.2.mission ≠ old then dinsert entry.1 (old, entry.2) changes
        else changes) acc =
      acc ++ l.filterMap (fun entry =>
        if entry.2.mission ≠ currentGet current entry.1
        then some (entry.1, (currentGet current entry.1, entry.2)) else none) := by
  intro l
  induction l with
  | nil => intro acc _ _; simp
  | cons e rest ih =>
    intro acc hnd hacc
    simp only [List.map_cons, List.nodup_cons] at hnd
    rw [List.foldl_cons, List.filterMap_cons]
    by_cases hch : e.2.mission ≠ currentGet current e.1
    · have hfresh : e.1 ∉ acc.map Prod.fst := by
        intro hc
        exact hacc e.1 hc (List.mem_cons_self e.1 _)
      have hstep : (let old := currentGet current e.1
          if e.2.mission ≠ old then dinsert e.1 (old, e.2) acc else acc) =
          acc ++ [(e.1, (currentGet current e.1, e.2))] := by
        simp only [if_pos hch]
        exact dinsert_eq_append _ hfresh
      rw [hstep, ih (acc ++ [(e.1, (currentGet current e.1, e.2))]) hnd.2 ?fresh,
        if_pos hch, List.append_assoc]
      rfl
      case fresh =>
        intro k hk
        rw [List.map_append, List.mem_append] at hk
        rcases hk with hk | hk
        · exact fun hmem => hacc k hk (List.mem_cons_of_mem _ hmem)
        · simp only [List.map_cons, List.map_nil, List.mem_singleton] at hk
          subst hk
          exact hnd.1
    · have hstep : (let old := currentGet current e.1
          if e.2.mission ≠ old then dinsert e.1 (old, e.2) acc else acc) = acc := by
        simp only [if_neg hch]
      rw [hstep, ih acc hnd.2
          (fun k hk => fun hmem => hacc k hk (List.mem_cons_of_mem _ hmem)),
        if_neg hch]

theorem sqrtCeilGo_spec (n : Nat) : ∀ (fuel k : Nat),
    (∀ j, j < k → n > j * j) → n ≤ (k + fuel) * (k + fuel) →
    n ≤ sqrtCeilGo n k fuel * sqrtCeilGo n k fuel ∧
      ∀ m, n ≤ m * m → sqrtCeilGo n k fuel ≤ m := by
  intro fuel
  induction fuel with
  | zero =>
    intro k hinv hbound
    refine ⟨by simpa [sqrtCeilGo] using hbound, fun m hm => ?_⟩
    by_contra hlt
    exact absurd hm (by simpa using Nat.lt_of_lt_of_le (hinv m (by simp [sqrtCeilGo] at hlt; omega)) (le_refl _) |>.not_le)
  | succ fuel ih =>
    intro k hinv hbound
    by_cases hk : n ≤ k * k
    · refine ⟨by simp [sqrtCeilGo, hk], fun m hm => ?_⟩
      simp only [sqrtCeilGo, if_pos hk]
      by_contra hlt
      exact absurd hm (Nat.lt_of_lt_of_le (hinv m (by omega)) (le_refl _) |>.not_le)
    · have step : sqrtCeilGo n k (fuel + 1) = sqrtCeilGo n (k + 1) fuel := by
        simp [sqrtCeilGo, hk]
      rw [step]
      exact ih (k + 1)
        (fun j hj => by rcases Nat.lt_succ_iff_lt_or_eq.mp hj with h | h
                        · exact hinv j h
                        · subst h; omega)
        (by have harr : k + 1 + fuel = k + (fuel + 1) := by omega
            rw [harr]; exact hbound)

/-- `sqrtCeil n` is exactly the ceiling of the square root: the least natural
whose square is at least `n`. -/
theorem sqrtCeil_spec (n : Nat) :
    n ≤ sqrtCeil n * sqrtCeil n ∧ ∀ m, n ≤ m * m → sqrtCeil n ≤ m := by
  have h := sqrtCeilGo_spec n n 0 (by omega) (by nlinarith)
  simpa [sqrtCeil] using h

/-! ## Claim theorems: trader, router fuel cost, contractor, client, commander -/

/-- One candidate step of the waypoint selection either keeps the
accumulator, or switches to a valid strictly-improving waypoint. -/
theorem pickStep_cases (coords : List (String × Int × Int)) (visited : List String)
    (cx cy dx dy : Int) (cap : Nat) (mode : FlightMode)
    (acc : Option (String × Int × Int) × Nat) (x : String) :
    pickStep coords visited cx cy dx dy cap mode acc x = acc ∨
    (x ∉ visited ∧ ∃ wx wy, dget x coords = some (wx, wy) ∧
      fuelCostSq (distSq cx cy wx wy) mode ≤ cap ∧
      distSq wx wy dx dy < acc.2 ∧
      pickStep coords visited cx cy dx dy cap mode acc x =
        (some (x, wx, wy), distSq wx wy dx dy)) := by
  by_cases h1 : x ∈ visited
  · left
    simp only [pickStep, if_pos h1]
  · rcases h2 : dget x coords with _ | ⟨wx, wy⟩
    · left
      simp only [pickStep, if_neg h1, h2]
    · by_cases h3 : cap < fuelCostSq (distSq cx cy wx wy) mode
      · left
        simp only [pickStep, if_neg h1, h2, if_pos h3]
      · by_cases h4 : distSq wx wy dx dy < acc.2
        · right
          exact ⟨h1, wx, wy, rfl, by omega, h4,
            by simp only [pickStep, if_neg h1, h2, if_neg h3, if_pos h4]⟩
        · left
          simp only [pickStep, if_neg h1, h2, if_neg h3, if_neg h4]

/-- The selection fold returns either its starting accumulator or an
unvisited fuel waypoint with known coordinates, reachable on a single tank,
whose remaining squared distance is strictly below the starting bound. -/
theorem pickStep_fold (coords : List (String × Int × Int)) (visited : List String)
    (cx cy dx dy : Int) (cap : Nat) (mode : FlightMode) :
    ∀ (l : List String) (acc : Option (String × Int × Int) × Nat)
      (w : String) (wx wy : Int) (rem : Nat),
    l.foldl (pickStep coords visited cx cy dx dy cap mode) acc = (some (w, wx, wy), rem) →
    (acc = (some (w, wx, wy), rem)) ∨
    (w ∈ l ∧ w ∉ visited ∧ dget w coords = some (wx, wy) ∧
      fuelCostSq (distSq cx cy wx wy) mode ≤ cap ∧
      rem = distSq wx wy dx dy ∧ rem < acc.2) := by
  intro l
  induction l with
  | nil =>
    intro acc w wx wy rem h
    exact Or.inl h
  | cons x rest ih =>
    intro acc w wx wy rem h
    rw [List.foldl_cons] at h
    rcases ih (pickStep coords visited cx cy dx dy cap mode acc x) w wx wy rem h with
      hcase | ⟨hmem, hnv, hdget, hfuel, hrem, hlt⟩
    · rcases pickStep_cases coords visited cx cy dx dy cap mode acc x with
        hstep | ⟨hnv, wx', wy', hdget, hfuel, hlt, hstep⟩
      · rw [hstep] at hcase
        exact Or.inl hcase
      · rw [hstep] at hcase
        simp only [Prod.mk.injEq, Option.some.injEq] at hcase
        obtain ⟨⟨hxw, hwx, hwy⟩, hr⟩ := hcase
        subst hxw
        subst hwx
        subst hwy
        subst hr
        exact Or.inr ⟨List.mem_cons_self x rest, hnv, hdget, hfuel, rfl, hlt⟩
    · refine Or.inr ⟨List.mem_cons_of_mem x hmem, hnv, hdget, hfuel, hrem, ?_⟩
      rcases pickStep_cases coords visited cx cy dx dy cap mode acc x with
        hstep | ⟨_, wx', wy', _, _, hlt', hstep⟩
      · rw [hstep] at hlt
        exact hlt
      · rw [hstep] at hlt
        exact lt_trans hlt hlt'

/-- Each feasible result of the loop carries its totals as the sum of its
segment costs (plus the 30 s overhead per intermediate stop), and never has
more segments than the iteration bound allows. -/
theorem multihopLoop_totals (coords : List (String × Int × Int))
    (fuel_waypoints : List String) (destination : String) (dx dy : Int)
    (cap : Nat) (mode : FlightMode) (tt : Nat → Nat) :
    ∀ (hops : Nat) (current : String) (cx cy : Int) (visited : List String)
      (segs : List RouteSegment),
    (multihopLoop coords fuel_waypoints destination dx dy cap mode tt
        hops current cx cy visited segs).feasible = true →
    ((multihopLoop coords fuel_waypoints destination dx dy cap mode tt
        hops current cx cy visited segs).total_fuel =
      ((multihopLoop coords fuel_waypoints destination dx dy cap mode tt
        hops current cx cy visited segs).segments.map (·.fuel_cost)).sum ∧
     (multihopLoop coords fuel_waypoints destination dx dy cap mode tt
        hops current cx cy visited segs).total_seconds =
      ((multihopLoop coords fuel_waypoints destination dx dy cap mode tt
        hops current cx cy visited segs).segments.map (·.travel_seconds)).sum +
        ((multihopLoop coords fuel_waypoints destination dx dy cap mode tt
          hops current cx cy visited segs).segments.length - 1) * REFUEL_STOP_OVERHEAD ∧
     (multihopLoop coords fuel_waypoints destination dx dy cap mode tt
        hops current cx cy visited segs).segments.length ≤ segs.length + hops) := by
  intro hops
  induction hops with
  | zero =>
    intro current cx cy visited segs h
    simp [multihopLoop] at h
  | succ hops ih =>
    intro current cx cy visited segs h
    by_cases hreach : fuelCostSq (distSq cx cy dx dy) mode ≤ cap
    · simp only [multihopLoop, if_pos hreach]
      refine ⟨trivial, trivial, ?_⟩
      simp only [List.length_append, List.length_cons, List.length_nil]
      omega
    · rcases hfold : fuel_waypoints.foldl
          (pickStep coords visited cx cy dx dy cap mode) (none, distSq cx cy dx dy) with
        ⟨o, r⟩
      rcases o with _ | ⟨⟨wp, wx, wy⟩⟩
      · rw [multihopLoop, if_neg hreach, hfold] at h
        simp at h
      · rw [multihopLoop, if_neg hreach, hfold] at h ⊢
        have := ih wp wx wy (visited ++ [wp])
          (segs ++ [{ origin := current, destination := wp,
                      dist2 := distSq cx cy wx wy, flight_mode := mode,
                      fuel_cost := fuelCostSq (distSq cx cy wx wy) mode,
                      travel_seconds := tt (distSq cx cy wx wy) }]) h
        refine ⟨this.1, this.2.1, ?_⟩
        have hlen := this.2.2
        simp only [List.length_append, List.length_cons, List.length_nil] at hlen ⊢
        omega

/-- C2: for every supply, activity, trade volume and cargo capacity,
`safe_sell_volume` is `min(v * m, c)` with `m` from the table
(SCARCE 2, LIMITED 3, MODERATE 4, HIGH 5, ABUNDANT 6, default 3) plus 1 for
STRONG activity; it never exceeds the cargo capacity, and the three spec
examples evaluate as stated. -/
theorem safe_sell_volume_spec :
    (∀ (supply : String) (activity : Option String) (v c : Nat),
      safe_sell_volume supply activity v c =
        min (v * ((if "SCARCE" = supply then 2
          else if "LIMITED" = supply then 3
          else if "MODERATE" = supply then 4
          else if "HIGH" = supply then 5
          else if "ABUNDANT" = supply then 6 else 3) +
          (if activity = some "STRONG" then 1 else 0))) c) ∧
    (∀ (supply : String) (activity : Option String) (v c : Nat),
      safe_sell_volume supply activity v c ≤ c) ∧
    safe_sell_volume "LIMITED" (some "WEAK") 6 40 = 18 ∧
    safe_sell_volume "LIMITED" (some "STRONG") 6 = 24 ∧
    safe_sell_volume "ABUNDANT" (some "STRONG") 100 25 = 25 := by
  refine ⟨fun supply activity v c => ?_, fun supply activity v c => ?_, by decide, by decide, by decide⟩
  · simp only [safe_sell_volume, SUPPLY_MULTIPLIER, dget]
    split_ifs <;> simp_all
  · simp only [safe_sell_volume]
    exact Nat.min_le_right _ _

/-- C7 counterexample: at distance 0 the code clamps the ceiled distance to a
minimum of 1, so the CRUISE leg costs 1 and the BURN leg 2 where the claim
demands `ceil(0) = 0` and `2 * ceil(0) = 0`. -/
theorem fuel_cost_claim_counterexample :
    ¬ (∀ d : ℚ, 0 ≤ d →
        fuel_cost d .cruise = ⌈d⌉ ∧ fuel_cost d .drift = 1 ∧ fuel_cost d .burn = 2 * ⌈d⌉) := by
  intro h
  have h0 := (h 0 le_rfl).1
  simp [fuel_cost] at h0

/-- C7 amended: for every positive distance the cost per leg is `ceil(d)` in
CRUISE, 1 in DRIFT and `2 * ceil(d)` in BURN; in general (including d = 0)
the ceiled distance is clamped below by 1, so the costs are `max 1 ceil(d)`,
1, and `2 * max 1 ceil(d)`. -/
theorem fuel_cost_amended :
    (∀ d : ℚ, 0 < d →
      fuel_cost d .cruise = ⌈d⌉ ∧ fuel_cost d .drift = 1 ∧ fuel_cost d .burn = 2 * ⌈d⌉) ∧
    (∀ d : ℚ,
      fuel_cost d .cruise = max 1 ⌈d⌉ ∧ fuel_cost d .drift = 1 ∧
        fuel_cost d .burn = 2 * max 1 ⌈d⌉) := by
  constructor
  · intro d hd
    have h1 : (1 : Int) ≤ ⌈d⌉ := Int.one_le_ceil_iff.mpr hd
    have hmax : max 1 ⌈d⌉ = ⌈d⌉ := max_eq_right h1
    refine ⟨?_, rfl, ?_⟩ <;> simp [fuel_cost, hmax, mul_comm]
  · intro d
    refine ⟨rfl, rfl, ?_⟩
    simp [fuel_cost, mul_comm]

/-- C7 witness: the amended theorem applied at distance 5/2, where the ceiling
is 3. -/
theorem fuel_cost_amended_witness :
    fuel_cost (5/2) .cruise = 3 ∧ fuel_cost (5/2) .drift = 1 ∧ fuel_cost (5/2) .burn = 6 := by
  have hc : ⌈(5/2 : ℚ)⌉ = 3 := by norm_num [Int.ceil_eq_iff]
  have h := fuel_cost_amended.1 (5/2) (by norm_num)
  rw [hc] at h
  exact ⟨h.1, h.2.1, by rw [h.2.2]; norm_num⟩

/-- C3: plan_multihop follows the greedy forward-progress algorithm. A
trivial route returns an empty feasible plan with zero fuel and time. While
the destination is out of single-tank range, the loop selects an unvisited
fuel waypoint with known coordinates, reachable on one tank, whose remaining
(squared) distance to the destination is strictly smaller than the current
one, and appends exactly that segment; when no such waypoint exists the plan
is infeasible; the loop runs at most |fuel_waypoints| + 1 iterations, so a
feasible plan has at most that many segments, its fuel is the sum of the
segment costs and its time the sum of the segment times plus 30 s per
intermediate stop. The spec's concrete example produces two 40-unit legs with
total fuel 80 and time t(A->B) + t(B->C) + 30. -/
theorem plan_multihop_greedy_spec :
    (∀ (coords : List (String × Int × Int)) (fuel_waypoints : List String)
        (origin : String) (cap : Nat) (mode : FlightMode) (tt : Nat → Nat),
      plan_multihop coords fuel_waypoints origin origin cap mode tt =
        { segments := [], total_fuel := 0, total_seconds := 0, feasible := true }) ∧
    (∀ (coords : List (String × Int × Int)) (visited fuel_waypoints : List String)
        (cx cy dx dy : Int) (cap : Nat) (mode : FlightMode)
        (w : String) (wx wy : Int) (rem : Nat),
      fuel_waypoints.foldl (pickStep coords visited cx cy dx dy cap mode)
          (none, distSq cx cy dx dy) = (some (w, wx, wy), rem) →
      w ∈ fuel_waypoints ∧ w ∉ visited ∧ dget w coords = some (wx, wy) ∧
        fuelCostSq (distSq cx cy wx wy) mode ≤ cap ∧
        rem = distSq wx wy dx dy ∧ rem < distSq cx cy dx dy) ∧
    (∀ (coords : List (String × Int × Int)) (fuel_waypoints : List String)
        (destination : String) (dx dy : Int) (cap : Nat) (mode : FlightMode)
        (tt : Nat → Nat) (hops : Nat) (current : String) (cx cy : Int)
        (visited : List String) (segs : List RouteSegment),
      fuelCostSq (distSq cx cy dx dy) mode ≤ cap →
      multihopLoop coords fuel_waypoints destination dx dy cap mode tt
          (hops + 1) current cx cy visited segs =
        { segments := segs ++ [({ origin := current, destination := destination,
                                  dist2 := distSq cx cy dx dy, flight_mode := mode,
                                  fuel_cost := fuelCostSq (distSq cx cy dx dy) mode,
                                  travel_seconds := tt (distSq cx cy dx dy) } :
                                    RouteSegment)],
          total_fuel := ((segs ++ [({ origin := current, destination := destination,
                                      dist2 := distSq cx cy dx dy, flight_mode := mode,
                                      fuel_cost := fuelCostSq (distSq cx cy dx dy) mode,
                                      travel_seconds := tt (distSq cx cy dx dy) } :
                                        RouteSegment)]).map
            (·.fuel_cost)).sum,
          total_seconds := ((segs ++ [({ origin := current,
                                         destination := destination,
                                         dist2 := distSq cx cy dx dy,
                                         flight_mode := mode,
                                         fuel_cost := fuelCostSq (distSq cx cy dx dy)
                                           mode,
                                         travel_seconds := tt (distSq cx cy dx dy) } :
                                           RouteSegment)]).map
              (·.travel_seconds)).sum +
            ((segs ++ [({ origin := current, destination := destination,
                          dist2 := distSq cx cy dx dy, flight_mode := mode,
                          fuel_cost := fuelCostSq (distSq cx cy dx dy) mode,
                          travel_seconds := tt (distSq cx cy dx dy) } :
                            RouteSegment)]).length - 1) *
              REFUEL_STOP_OVERHEAD,
          feasible := true }) ∧
    (∀ (coords : List (String × Int × Int)) (fuel_waypoints : List String)
        (destination : String) (dx dy : Int) (cap : Nat) (mode : FlightMode)
        (tt : Nat → Nat) (hops : Nat) (current : String) (cx cy : Int)
        (visited : List String) (segs : List RouteSegment) (rem : Nat),
      ¬ fuelCostSq (distSq cx cy dx dy) mode ≤ cap →
      fuel_waypoints.foldl (pickStep coords visited cx cy dx dy cap mode)
          (none, distSq cx cy dx dy) = (none, rem) →
      multihopLoop coords fuel_waypoints destination dx dy cap mode tt
          (hops + 1) current cx cy visited segs =
        { segments := [], total_fuel := 0, total_seconds := 0, feasible := false,
          reason := "No reachable fuel waypoint makes progress from " ++ current ++
            " toward " ++ destination }) ∧
    (∀ (coords : List (String × Int × Int)) (fuel_waypoints : List String)
        (destination : String) (dx dy : Int) (cap : Nat) (mode : FlightMode)
        (tt : Nat → Nat) (hops : Nat) (current : String) (cx cy : Int)
        (visited : List String) (segs : List RouteSegment)
        (w : String) (wx wy : Int) (rem : Nat),
      ¬ fuelCostSq (distSq cx cy dx dy) mode ≤ cap →
      fuel_waypoints.foldl (pickStep coords visited cx cy dx dy cap mode)
          (none, distSq cx cy dx dy) = (some (w, wx, wy), rem) →
      multihopLoop coords fuel_waypoints destination dx dy cap mode tt
          (hops + 1) current cx cy visited segs =
        multihopLoop coords fuel_waypoints destination dx dy cap mode tt
          hops w wx wy (visited ++ [w])
          (segs ++ [{ origin := current, destination := w,
                      dist2 := distSq cx cy wx wy, flight_mode := mode,
                      fuel_cost := fuelCostSq (distSq cx cy wx wy) mode,
                      travel_seconds := tt (distSq cx cy wx wy) }])) ∧
    (∀ (coords : List (String × Int × Int)) (fuel_waypoints : List String)
        (origin destination : String) (cap : Nat) (mode : FlightMode) (tt : Nat → Nat),
      (plan_multihop coords fuel_waypoints origin destination cap mode tt).feasible =
          true →
      (plan_multihop coords fuel_waypoints origin destination cap mode tt).total_fuel =
        ((plan_multihop coords fuel_waypoints origin destination cap mode
          tt).segments.map (·.fuel_cost)).sum ∧
      (plan_multihop coords fuel_waypoints origin destination cap mode tt).total_seconds =
        ((plan_multihop coords fuel_waypoints origin destination cap mode
            tt).segments.map (·.travel_seconds)).sum +
          ((plan_multihop coords fuel_waypoints origin destination cap mode
            tt).segments.length - 1) * REFUEL_STOP_OVERHEAD ∧
      (plan_multihop coords fuel_waypoints origin destination cap mode
          tt).segments.length ≤ fuel_waypoints.length + 1) ∧
    (∀ tt : Nat → Nat,
      plan_multihop [("A", (0, 0)), ("B", (40, 0)), ("C", (80, 0))] ["B"]
          "A" "C" 50 .cruise tt =
        { segments := [{ origin := "A", destination := "B", dist2 := 1600,
                         flight_mode := .cruise, fuel_cost := 40,
                         travel_seconds := tt 1600 },
                       { origin := "B", destination := "C", dist2 := 1600,
                         flight_mode := .cruise, fuel_cost := 40,
                         travel_seconds := tt 1600 }],
          total_fuel := 80, total_seconds := tt 1600 + tt 1600 + 30,
          feasible := true }) := by
  refine ⟨?_, ?_, ?_, ?_, ?_, ?_, ?_⟩
  · intro coords fuel_waypoints origin cap mode tt
    simp [plan_multihop]
  · intro coords visited fuel_waypoints cx cy dx dy cap mode w wx wy rem h
    rcases pickStep_fold coords visited cx cy dx dy cap mode fuel_waypoints
        (none, distSq cx cy dx dy) w wx wy rem h with hcase | hcase
    · simp at hcase
    · exact ⟨hcase.1, hcase.2.1, hcase.2.2.1, hcase.2.2.2.1, hcase.2.2.2.2.1,
        hcase.2.2.2.2.2⟩
  · intro coords fuel_waypoints destination dx dy cap mode tt hops current cx cy
      visited segs h
    simp only [multihopLoop, if_pos h]
  · intro coords fuel_waypoints destination dx dy cap mode tt hops current cx cy
      visited segs rem h hfold
    rw [multihopLoop, if_neg h, hfold]
  · intro coords fuel_waypoints destination dx dy cap mode tt hops current cx cy
      visited segs w wx wy rem h hfold
    rw [multihopLoop, if_neg h, hfold]
  · intro coords fuel_waypoints origin destination cap mode tt hfeas
    by_cases heq : origin = destination
    · subst heq
      simp [plan_multihop]
    · rcases ho : dget origin coords with _ | ⟨ox, oy⟩
      · rw [plan_multihop, if_neg heq, ho] at hfeas
        simp at hfeas
      · rcases hd : dget destination coords with _ | ⟨dx, dy⟩
        · rw [plan_multihop, if_neg heq, ho, hd] at hfeas
          simp at hfeas
        · rw [plan_multihop, if_neg heq, ho, hd] at hfeas ⊢
          have h := multihopLoop_totals coords fuel_waypoints destination dx dy cap
            mode tt (fuel_waypoints.length + 1) origin ox oy [origin] [] hfeas
          exact ⟨h.1, h.2.1, by simpa using h.2.2⟩
  · intro tt
    rfl

/-- C3 witness: the greedy-spec theorem applied to the spec's concrete system
(a trivial route, the two-leg A-to-C route, and its segment-count bound). -/
theorem plan_multihop_greedy_spec_witness :
    plan_multihop [("A", (0, 0)), ("B", (40, 0)), ("C", (80, 0))] ["B"]
        "X" "X" 50 .cruise (fun n => n) =
      { segments := [], total_fuel := 0, total_seconds := 0, feasible := true } ∧
    plan_multihop [("A", (0, 0)), ("B", (40, 0)), ("C", (80, 0))] ["B"]
        "A" "C" 50 .cruise (fun n => n) =
      { segments := [{ origin := "A", destination := "B", dist2 := 1600,
                       flight_mode := .cruise, fuel_cost := 40, travel_seconds := 1600 },
                     { origin := "B", destination := "C", dist2 := 1600,
                       flight_mode := .cruise, fuel_cost := 40, travel_seconds := 1600 }],
        total_fuel := 80, total_seconds := 1600 + 1600 + 30, feasible := true } ∧
    (plan_multihop [("A", (0, 0)), ("B", (40, 0)), ("C", (80, 0))] ["B"]
        "A" "C" 50 .cruise (fun n => n)).segments.length ≤ 2 := by
  refine ⟨?_, ?_, ?_⟩
  · exact plan_multihop_greedy_spec.1 [("A", (0, 0)), ("B", (40, 0)), ("C", (80, 0))]
      ["B"] "X" 50 .cruise (fun n => n)
  · exact plan_multihop_greedy_spec.2.2.2.2.2.2 (fun n => n)
  · exact (plan_multihop_greedy_spec.2.2.2.2.2.1
      [("A", (0, 0)), ("B", (40, 0)), ("C", (80, 0))] ["B"] "A" "C" 50 .cruise
      (fun n => n) (by decide)).2.2

/-- C9: when the origin or the destination has no coordinates (and the route
is not trivial), `plan_multihop` returns an infeasible plan carrying the
unknown-coordinates reason rather than failing. -/
theorem plan_multihop_missing_coords
    (coords : List (String × Int × Int)) (fuel_waypoints : List String)
    (origin destination : String) (fuel_capacity : Nat) (mode : FlightMode)
    (tt : Nat → Nat) (hne : origin ≠ destination)
    (hmiss : dget origin coords = none ∨ dget destination coords = none) :
    (plan_multihop coords fuel_waypoints origin destination fuel_capacity mode tt).feasible
        = false ∧
    (plan_multihop coords fuel_waypoints origin destination fuel_capacity mode tt).reason =
      "Unknown coordinates for " ++ origin ++ " or " ++ destination ∧
    (plan_multihop coords fuel_waypoints origin destination fuel_capacity mode tt).reason
        ≠ "" := by
  have hplan : plan_multihop coords fuel_waypoints origin destination fuel_capacity mode tt =
      { segments := [], total_fuel := 0, total_seconds := 0, feasible := false,
        reason := "Unknown coordinates for " ++ origin ++ " or " ++ destination } := by
    rw [plan_multihop, if_neg hne]
    rcases hmiss with h | h
    · rw [h]
    · rcases ho : dget origin coords with _ | ⟨ox, oy⟩ <;> rw [h]
  refine ⟨by rw [hplan], by rw [hplan], ?_⟩
  rw [hplan]
  intro hcontra
  have hlen := congrArg String.length hcontra
  rw [String.length_append, String.length_append, String.length_append] at hlen
  have h1 : ("Unknown coordinates for ").length = 24 := by decide
  have h2 : (" or ").length = 4 := by decide
  have h3 : ("" : String).length = 0 := by decide
  omega

/-- C9 witness: a concrete route request whose destination is absent from the
coordinate map. -/
theorem plan_multihop_missing_coords_witness :
    (plan_multihop [("A", 0, 0)] [] "A" "B" 100 .cruise (fun _ => 0)).feasible = false ∧
    (plan_multihop [("A", 0, 0)] [] "A" "B" 100 .cruise (fun _ => 0)).reason =
      "Unknown coordinates for " ++ "A" ++ " or " ++ "B" ∧
    (plan_multihop [("A", 0, 0)] [] "A" "B" 100 .cruise (fun _ => 0)).reason ≠ "" :=
  plan_multihop_missing_coords [("A", 0, 0)] [] "A" "B" 100 .cruise (fun _ => 0)
    (by decide) (Or.inr (by decide))

theorem evalProfitLoop_missing (find_best_buy : String → Option Int)
    (payment : PaymentTerms) :
    ∀ (l : List DeliverLine) (tc : Int) (det : List String),
    (∃ d ∈ l, 0 < d.units_required - d.units_fulfilled ∧
        find_best_buy d.trade_symbol = none) →
    (evalProfitLoop find_best_buy payment l tc det).1 = false ∧
      (evalProfitLoop find_best_buy payment l tc det).2.1 = 0 := by
  intro l
  induction l with
  | nil => intro tc det h; simp at h
  | cons d rest ih =>
    intro tc det h
    rcases h with ⟨w, hw, hpos, hnone⟩
    rcases List.mem_cons.mp hw with rfl | hmem
    · have hrem : ¬ (w.units_required - w.units_fulfilled ≤ 0) := by omega
      simp [evalProfitLoop, hrem, hnone]
    · by_cases hrem : d.units_required - d.units_fulfilled ≤ 0
      · simpa [evalProfitLoop, hrem] using ih tc det ⟨w, hmem, hpos, hnone⟩
      · rcases hfind : find_best_buy d.trade_symbol with _ | price
        · simp [evalProfitLoop, hrem, hfind]
        · simpa [evalProfitLoop, hrem, hfind] using
            ih (tc + price * (d.units_required - d.units_fulfilled)) _
              ⟨w, hmem, hpos, hnone⟩

/-- C10: whenever some delivery line with units remaining has no cached buy
market for its good, `_evaluate_profitability` reports the contract as
unprofitable with estimated profit 0. -/
theorem evaluate_profitability_missing_market (deliver : List DeliverLine)
    (find_best_buy : String → Option Int) (payment : PaymentTerms)
    (h : ∃ d ∈ deliver, 0 < d.units_required - d.units_fulfilled ∧
        find_best_buy d.trade_symbol = none) :
    (_evaluate_profitability deliver find_best_buy payment).1 = false ∧
      (_evaluate_profitability deliver find_best_buy payment).2.1 = 0 :=
  evalProfitLoop_missing find_best_buy payment deliver 0 [] h

/-- C10 witness: a two-line contract whose second line's good has no cached
market is evaluated unprofitable with profit 0, even though the payment is
large. -/
theorem evaluate_profitability_missing_market_witness :
    (_evaluate_profitability
      [⟨"IRON", 10, 10, "W1"⟩, ⟨"GOLD", 5, 0, "W1"⟩]
      (fun g => if g = "IRON" then some 10 else none)
      ⟨100000, 100000⟩).1 = false ∧
    (_evaluate_profitability
      [⟨"IRON", 10, 10, "W1"⟩, ⟨"GOLD", 5, 0, "W1"⟩]
      (fun g => if g = "IRON" then some 10 else none)
      ⟨100000, 100000⟩).2.1 = 0 :=
  evaluate_profitability_missing_market _ _ _
    ⟨⟨"GOLD", 5, 0, "W1"⟩, by decide, by decide, by decide⟩

/-- C5: a rate-limited response (application code 429 or HTTP status 429)
with fewer than 5 retries spent is retried, waiting exactly the numeric
`retry-after` header value when one is present and the indexed backoff
schedule entry when it is absent. The response carries an error payload (as
API rate-limit responses do) and is not a 204, which is consumed earlier. -/
theorem rate_limit_retry (status : Nat) (err : ErrorPayload)
    (retry_after : Option Nat) (rtry : Nat)
    (h204 : status ≠ 204) (hretry : rtry < SpaceTradersClient.MAX_RETRIES)
    (h429 : err.appCode status = 429 ∨ status = 429) :
    SpaceTradersClient.handleResponse status (some err) retry_after rtry =
      .retry (retry_after.getD (SpaceTradersClient.BACKOFF_SCHEDULE.getD rtry 0)) := by
  show (if status = 204 then RequestOutcome.success
    else if (err.appCode status = 429 ∨ status = 429) ∧
        rtry < SpaceTradersClient.MAX_RETRIES then
      RequestOutcome.retry (match retry_after with
        | some k => k
        | none => SpaceTradersClient.BACKOFF_SCHEDULE.getD rtry 0)
    else if (err.appCode status = 3000 ∨ 500 ≤ status) ∧
        rtry < SpaceTradersClient.MAX_RETRIES then
      RequestOutcome.retry (SpaceTradersClient.BACKOFF_SCHEDULE.getD rtry 0)
    else RequestOutcome.apiError (err.appCode status)) = _
  rw [if_neg h204, if_pos (And.intro h429 hretry)]
  cases retry_after <;> rfl

/-- C5 witness: a 429 status with retry-after 7 on the first attempt waits
exactly 7 seconds; the theorem also covers the schedule fallback. -/
theorem rate_limit_retry_witness :
    SpaceTradersClient.handleResponse 429 (some (.str "rate limited")) (some 7) 0 =
      .retry 7 ∧
    SpaceTradersClient.handleResponse 429 (some (.str "rate limited")) none 2 =
      .retry 20 := by
  constructor
  · exact rate_limit_retry 429 (.str "rate limited") (some 7) 0 (by decide) (by decide)
      (Or.inr rfl)
  · exact rate_limit_retry 429 (.str "rate limited") none 2 (by decide) (by decide)
      (Or.inr rfl)

/-- C4 counterexample: a mission crashing repeatedly from a fresh agent is
relaunched after the 5th crash (restart_count 4, backoff 300 s) — it is not
parked IDLE then; parking happens on the 6th crash. -/
theorem handle_crash_fifth_counterexample :
    crashOutcomes ⟨.trade, 0, true⟩ 5 =
      [.restarted 10, .restarted 30, .restarted 60, .restarted 120, .restarted 300] ∧
    (crashState ⟨.trade, 0, true⟩ 5).mission = .trade ∧
    (crashState ⟨.trade, 0, true⟩ 5).has_task = true := by
  decide

/-- C4 amended: each crash arriving with restart_count below 5 sleeps
`RESTART_BACKOFF[min(restart_count, 4)]` and relaunches with the counter
incremented; a crash arriving with restart_count at least 5 parks the ship
IDLE and drops the task handle. A repeatedly crashing fresh mission therefore
sees delays 10, 30, 60, 120, 300 s on its first five crashes and is parked on
the 6th. -/
theorem handle_crash_amended :
    (∀ a : AgentState, a.restart_count < MAX_RESTARTS →
      (FleetCommander.handle_crash a false true).2 =
        .restarted (RESTART_BACKOFF.getD (min a.restart_count 4) 0) ∧
      (FleetCommander.handle_crash a false true).1.restart_count = a.restart_count + 1) ∧
    (∀ (a : AgentState) (sd reg : Bool), MAX_RESTARTS ≤ a.restart_count →
      FleetCommander.handle_crash a sd reg =
        ({ a with mission := .idle, has_task := false }, .parked)) ∧
    crashOutcomes ⟨.trade, 0, true⟩ 6 =
      [.restarted 10, .restarted 30, .restarted 60, .restarted 120, .restarted 300,
        .parked] ∧
    (crashState ⟨.trade, 0, true⟩ 6).mission = .idle ∧
    (crashState ⟨.trade, 0, true⟩ 6).has_task = false := by
  refine ⟨fun a ha => ?_, fun a sd reg ha => ?_, by decide, by decide, by decide⟩
  · have hlt : ¬ MAX_RESTARTS ≤ a.restart_count := by omega
    simp [FleetCommander.handle_crash, hlt, RESTART_BACKOFF, ShipAgent.relaunch]
  · simp [FleetCommander.handle_crash, ha]

/-- C1: FleetStrategy.evaluate follows the specified decision order. Probes
are assigned SCAN. With credits below the idle threshold every cargo ship is
parked IDLE. Otherwise the cargo ships are sorted by capacity descending
(a stable sorted permutation); if the gate needs supplies and credits clear
the gate floor, the first (largest) cargo ship gets GATE_BUILD with
kwargs capital_floor = gate_floor; with an active profitable contract up to 2
of the remaining ships get CONTRACT; the rest get TRADE when routes exist and
credits clear the trade minimum, else IDLE. -/
theorem evaluate_decision_order (capital : CapitalPolicy) (credits : Int)
    (ships : List ShipCapability) (cur : List (String × MissionType))
    (hac cp gns mra : Bool) (sk : List String) (ov : List (String × String))
    (hnd : (ships.map (·.symbol)).Nodup) :
    (∀ x ∈ probesOf sk ov ships,
      dget x.symbol
        (FleetStrategy.evaluate capital credits ships cur hac cp gns mra sk ov).assignments =
        some ⟨.scan, []⟩) ∧
    (credits < capital.idle_threshold →
      ∀ x ∈ cargoOf sk ov ships,
        dget x.symbol
          (FleetStrategy.evaluate capital credits ships cur hac cp gns mra sk ov).assignments =
          some ⟨.idle, []⟩) ∧
    (capital.idle_threshold ≤ credits →
      (List.insertionSort cargoRel (cargoOf sk ov ships)).Perm (cargoOf sk ov ships) ∧
      (List.insertionSort cargoRel (cargoOf sk ov ships)).Sorted cargoRel ∧
      ((gns && decide (capital.gate_floor ≤ credits)) = true →
        ∀ (g : ShipCapability) (rest : List ShipCapability),
          List.insertionSort cargoRel (cargoOf sk ov ships) = g :: rest →
          dget g.symbol
            (FleetStrategy.evaluate capital credits ships cur hac cp gns mra sk
              ov).assignments =
            some ⟨.gate_build, [("capital_floor", capital.gate_floor)]⟩) ∧
      ((hac && cp) = true →
        ∀ x ∈ ((if (gns && decide (capital.gate_floor ≤ credits)) &&
              !(List.insertionSort cargoRel (cargoOf sk ov ships)).isEmpty
            then (List.insertionSort cargoRel (cargoOf sk ov ships)).tail
            else List.insertionSort cargoRel (cargoOf sk ov ships)).take 2),
          dget x.symbol
            (FleetStrategy.evaluate capital credits ships cur hac cp gns mra sk
              ov).assignments =
            some ⟨.contract, []⟩) ∧
      (∀ x ∈ (if hac && cp
            then (if (gns && decide (capital.gate_floor ≤ credits)) &&
                !(List.insertionSort cargoRel (cargoOf sk ov ships)).isEmpty
              then (List.insertionSort cargoRel (cargoOf sk ov ships)).tail
              else List.insertionSort cargoRel (cargoOf sk ov ships)).drop 2
            else (if (gns && decide (capital.gate_floor ≤ credits)) &&
                !(List.insertionSort cargoRel (cargoOf sk ov ships)).isEmpty
              then (List.insertionSort cargoRel (cargoOf sk ov ships)).tail
              else List.insertionSort cargoRel (cargoOf sk ov ships))),
        dget x.symbol
          (FleetStrategy.evaluate capital credits ships cur hac cp gns mra sk
            ov).assignments =
          some (if mra && decide (capital.trade_min ≤ credits)
            then (⟨.trade, []⟩ : ShipAssignment) else ⟨.idle, []⟩))) := by
  have hcnd : ((cargoOf sk ov ships).map (·.symbol)).Nodup := filter_symbols_nodup hnd _
  have hperm : (List.insertionSort cargoRel (cargoOf sk ov ships)).Perm
      (cargoOf sk ov ships) := List.perm_insertionSort cargoRel _
  have hsnd : ((List.insertionSort cargoRel (cargoOf sk ov ships)).map (·.symbol)).Nodup :=
    ((hperm.map (·.symbol)).nodup_iff).mpr hcnd
  have hAGsub : (if (gns && decide (capital.gate_floor ≤ credits)) &&
        !(List.insertionSort cargoRel (cargoOf sk ov ships)).isEmpty
      then (List.insertionSort cargoRel (cargoOf sk ov ships)).tail
      else List.insertionSort cargoRel (cargoOf sk ov ships)).Sublist
      (List.insertionSort cargoRel (cargoOf sk ov ships)) := by
    by_cases h : ((gns && decide (capital.gate_floor ≤ credits)) &&
        !(List.insertionSort cargoRel (cargoOf sk ov ships)).isEmpty) = true
    · rw [if_pos h]
      exact List.tail_sublist _
    · rw [if_neg h]
  have hAGnd := symbols_nodup_of_sublist hAGsub hsnd
  refine ⟨?_, ?_, ?_⟩
  · intro x hx
    exact evaluate_get_probe capital credits ships cur hac cp gns mra sk ov hnd x hx
  · intro hb x hx
    simp only [evaluate_unfold, if_pos hb]
    exact assignAll_mem .idle _ _ x hx hcnd
  · intro hcr
    have hb : ¬ credits < capital.idle_threshold := not_lt.mpr hcr
    refine ⟨hperm, List.sorted_insertionSort cargoRel _, ?_, ?_, ?_⟩
    · intro hgate g rest hsor
      have hsnd2 := hsnd
      rw [hsor, List.map_cons, List.nodup_cons] at hsnd2
      have hgrest : g.symbol ∉ rest.map (·.symbol) := hsnd2.1
      simp only [evaluate_unfold, if_neg hb]
      rw [hsor, gatePhase_pos _ _ _ _ _ _ hgate]
      rw [finishPhase_stable _ _ _
          (notmem_symbols_of_subset (contractPhase_snd_subset _ _ _) hgrest),
        contractPhase_fst_stable _ _ _ _ hgrest]
      exact dget_dinsert_self _ _ _
    · intro hcc x hxt
      have hnotdrop := take_drop_symbols_disjoint hAGnd 2 hxt
      simp only [evaluate_unfold, if_neg hb]
      rw [contractPhase_pos _ _ _ hcc, gatePhase_snd_eq]
      rw [finishPhase_stable _ _ _ hnotdrop]
      exact assignAll_mem .contract _ _ x hxt
        (symbols_nodup_of_sublist (List.take_sublist 2 _) hAGnd)
    · intro x hxa
      have hACsub : (if hac && cp
          then (if (gns && decide (capital.gate_floor ≤ credits)) &&
              !(List.insertionSort cargoRel (cargoOf sk ov ships)).isEmpty
            then (List.insertionSort cargoRel (cargoOf sk ov ships)).tail
            else List.insertionSort cargoRel (cargoOf sk ov ships)).drop 2
          else (if (gns && decide (capital.gate_floor ≤ credits)) &&
              !(List.insertionSort cargoRel (cargoOf sk ov ships)).isEmpty
            then (List.insertionSort cargoRel (cargoOf sk ov ships)).tail
            else List.insertionSort cargoRel (cargoOf sk ov ships))).Sublist
          (if (gns && decide (capital.gate_floor ≤ credits)) &&
              !(List.insertionSort cargoRel (cargoOf sk ov ships)).isEmpty
            then (List.insertionSort cargoRel (cargoOf sk ov ships)).tail
            else List.insertionSort cargoRel (cargoOf sk ov ships)) := by
        by_cases h : (hac && cp) = true
        · rw [if_pos h]
          exact List.drop_sublist 2 _
        · rw [if_neg h]
      have hACnd := symbols_nodup_of_sublist hACsub hAGnd
      simp only [evaluate_unfold, if_neg hb]
      have hfin : ∀ (b : Bool) (st : List (String × ShipAssignment) × List ShipCapability),
          (finishPhase b st).assignments =
            assignAll (if b then .trade else .idle) st.2 st.1 := fun b st => rfl
      rw [hfin]
      rw [contractPhase_snd_eq, gatePhase_snd_eq]
      have hmem : dget x.symbol (assignAll
          (if (mra && decide (capital.trade_min ≤ credits)) then MissionType.trade
            else MissionType.idle)
          (if hac && cp
            then (if (gns && decide (capital.gate_floor ≤ credits)) &&
                !(List.insertionSort cargoRel (cargoOf sk ov ships)).isEmpty
              then (List.insertionSort cargoRel (cargoOf sk ov ships)).tail
              else List.insertionSort cargoRel (cargoOf sk ov ships)).drop 2
            else (if (gns && decide (capital.gate_floor ≤ credits)) &&
                !(List.insertionSort cargoRel (cargoOf sk ov ships)).isEmpty
              then (List.insertionSort cargoRel (cargoOf sk ov ships)).tail
              else List.insertionSort cargoRel (cargoOf sk ov ships)))
          (contractPhase hac cp
            (gatePhase capital credits gns
              (assignAll .scan (probesOf sk ov ships)
                (ships.foldl (partitionStep sk ov) ([], [], [])).1)
              (List.insertionSort cargoRel (cargoOf sk ov ships)))).1) =
          some ⟨(if (mra && decide (capital.trade_min ≤ credits)) then MissionType.trade
            else MissionType.idle), []⟩ :=
        assignAll_mem _ _ _ x hxa hACnd
      refine Eq.trans hmem ?_
      by_cases htr : (mra && decide (capital.trade_min ≤ credits)) = true
      · rw [if_pos htr, if_pos htr]
      · rw [if_neg htr, if_neg htr]

/-- C1 witness: the spec scenario with credits 500000, cargo ships of
capacities 40, 80, 80 and one probe, gate and contract both on: the probe
scans, the first 80-cargo ship builds the gate, and the two remaining ships
run the contract. -/
theorem evaluate_decision_order_witness :
    dget "P-1" (FleetStrategy.evaluate {} 500000
      [⟨"S-1", 40, 100, "ship", .idle⟩, ⟨"S-2", 80, 100, "ship", .idle⟩,
        ⟨"S-3", 80, 100, "ship", .idle⟩, ⟨"P-1", 0, 100, "probe", .idle⟩]
      [] true true true true [] []).assignments = some ⟨.scan, []⟩ ∧
    dget "S-2" (FleetStrategy.evaluate {} 500000
      [⟨"S-1", 40, 100, "ship", .idle⟩, ⟨"S-2", 80, 100, "ship", .idle⟩,
        ⟨"S-3", 80, 100, "ship", .idle⟩, ⟨"P-1", 0, 100, "probe", .idle⟩]
      [] true true true true [] []).assignments =
      some ⟨.gate_build, [("capital_floor", 300000)]⟩ ∧
    dget "S-3" (FleetStrategy.evaluate {} 500000
      [⟨"S-1", 40, 100, "ship", .idle⟩, ⟨"S-2", 80, 100, "ship", .idle⟩,
        ⟨"S-3", 80, 100, "ship", .idle⟩, ⟨"P-1", 0, 100, "probe", .idle⟩]
      [] true true true true [] []).assignments = some ⟨.contract, []⟩ ∧
    dget "S-1" (FleetStrategy.evaluate {} 500000
      [⟨"S-1", 40, 100, "ship", .idle⟩, ⟨"S-2", 80, 100, "ship", .idle⟩,
        ⟨"S-3", 80, 100, "ship", .idle⟩, ⟨"P-1", 0, 100, "probe", .idle⟩]
      [] true true true true [] []).assignments = some ⟨.contract, []⟩ := by
  have h := evaluate_decision_order {} 500000
    [⟨"S-1", 40, 100, "ship", .idle⟩, ⟨"S-2", 80, 100, "ship", .idle⟩,
      ⟨"S-3", 80, 100, "ship", .idle⟩, ⟨"P-1", 0, 100, "probe", .idle⟩]
    [] true true true true [] [] (by decide)
  refine ⟨?_, ?_, ?_, ?_⟩
  · exact h.1 ⟨"P-1", 0, 100, "probe", .idle⟩ (by decide)
  · exact (h.2.2 (by decide)).2.2.1 (by decide) ⟨"S-2", 80, 100, "ship", .idle⟩
      [⟨"S-3", 80, 100, "ship", .idle⟩, ⟨"S-1", 40, 100, "ship", .idle⟩] (by decide)
  · exact (h.2.2 (by decide)).2.2.2.1 (by decide) ⟨"S-3", 80, 100, "ship", .idle⟩
      (by decide)
  · exact (h.2.2 (by decide)).2.2.2.1 (by decide) ⟨"S-1", 40, 100, "ship", .idle⟩
      (by decide)

/-- C6: the plan returned by FleetStrategy.evaluate contains an assignment
for exactly the input ship symbols; a symbol absent from the current map is
compared against IDLE; and changes_from returns exactly the entries whose new
mission differs from the current one (none whose mission is unchanged). -/
theorem fleetplan_cover_and_changes :
    (∀ (capital : CapitalPolicy) (credits : Int) (ships : List ShipCapability)
        (cur : List (String × MissionType)) (hac cp gns mra : Bool)
        (sk : List String) (ov : List (String × String)) (sym : String),
      (dget sym (FleetStrategy.evaluate capital credits ships cur hac cp gns mra sk
          ov).assignments).isSome = true ↔ sym ∈ ships.map (·.symbol)) ∧
    (∀ (current : List (String × MissionType)) (sym : String),
      dget sym current = none → currentGet current sym = .idle) ∧
    (∀ (p : FleetPlan) (current : List (String × MissionType)),
      (p.assignments.map Prod.fst).Nodup →
      p.changes_from current = p.assignments.filterMap (fun entry =>
        if entry.2.mission ≠ currentGet current entry.1
        then some (entry.1, (currentGet current entry.1, entry.2)) else none)) := by
  refine ⟨?_, ?_, ?_⟩
  · intro capital credits ships cur hac cp gns mra sk ov sym
    have hpart : (dget sym
        ((ships.foldl (partitionStep sk ov) ([], [], []))).1).isSome = true ↔
        ∃ x ∈ ships, x.symbol = sym ∧ (routed sk ov x).isSome = true := by
      have h := partition_plan_keys sk ov ships ([], [], []) sym
      simpa [dget] using h
    have hpool := pools_cover sk ov ships sym
    have hsortmem : sym ∈ (List.insertionSort cargoRel (cargoOf sk ov ships)).map
        (·.symbol) ↔ sym ∈ (cargoOf sk ov ships).map (·.symbol) :=
      ((List.perm_insertionSort cargoRel (cargoOf sk ov ships)).map (·.symbol)).mem_iff
    simp only [evaluate_unfold]
    by_cases hb : credits < capital.idle_threshold
    · simp only [if_pos hb]
      rw [assignAll_keys, assignAll_keys, hpart, ← hpool, or_left_comm]
    · simp only [if_neg hb]
      simp only [finishPhase]
      rw [assignAll_keys, or_comm, contractPhase_keys, gatePhase_keys, assignAll_keys,
        hpart, hsortmem, ← hpool, or_assoc]
      exact or_congr_right or_comm
  · intro current sym h
    simp [currentGet, h]
  · intro p current hnd
    have h := changes_foldl current p.assignments [] hnd (by intro k hk; simp at hk)
    simpa [FleetPlan.changes_from] using h

/-- C6 witness: a one-ship fleet is exactly covered, an absent symbol is
compared against IDLE, and changes_from keeps only the changed entry. -/
theorem fleetplan_cover_and_changes_witness :
    (dget "S-1" (FleetStrategy.evaluate {} 100000 [⟨"S-1", 40, 100, "ship", .idle⟩]
      [] false false false false [] []).assignments).isSome = true ∧
    currentGet [("A", .trade)] "B" = .idle ∧
    FleetPlan.changes_from ⟨[("S-1", ⟨.trade, []⟩), ("S-2", ⟨.contract, []⟩)]⟩
        [("S-1", .trade)] =
      [("S-2", (.idle, ⟨.contract, []⟩))] := by
  refine ⟨?_, ?_, ?_⟩
  · exact (fleetplan_cover_and_changes.1 {} 100000 [⟨"S-1", 40, 100, "ship", .idle⟩]
      [] false false false false [] [] "S-1").mpr (by decide)
  · exact fleetplan_cover_and_changes.2.1 [("A", .trade)] "B" (by decide)
  · rw [fleetplan_cover_and_changes.2.2 ⟨[("S-1", ⟨.trade, []⟩), ("S-2", ⟨.contract, []⟩)]⟩
      [("S-1", .trade)] (by decide)]
    decide

/-- C8: a ship whose manual override string does not parse as a mission kind
is assigned IDLE by FleetStrategy.evaluate — the invalid override silently
degrades to IDLE instead of raising or falling through to the normal decision
order. -/
theorem invalid_override_becomes_idle (capital : CapitalPolicy) (credits : Int)
    (ships : List ShipCapability) (cur : List (String × MissionType))
    (hac cp gns mra : Bool) (sk : List String) (ov : List (String × String))
    (hnd : (ships.map (·.symbol)).Nodup) (x : ShipCapability) (s : String)
    (hx : x ∈ ships) (hskip : x.symbol ∉ sk) (hov : dget x.symbol ov = some s)
    (hparse : MissionType.parse s = none) :
    dget x.symbol
      (FleetStrategy.evaluate capital credits ships cur hac cp gns mra sk ov).assignments =
      some ⟨.idle, []⟩ := by
  refine evaluate_get_routed capital credits ships cur hac cp gns mra sk ov hnd x _ hx ?_
  rw [routed, if_neg hskip, hov]
  simp [hparse]

/-- C8 witness: a cargo ship overridden with the unknown mission string
"mine" is parked IDLE even though credits and routes would have sent it
trading. -/
theorem invalid_override_becomes_idle_witness :
    dget "S-1" (FleetStrategy.evaluate {} 250000 [⟨"S-1", 40, 100, "ship", .idle⟩] []
      false false false true [] [("S-1", "mine")]).assignments = some ⟨.idle, []⟩ :=
  invalid_override_becomes_idle {} 250000 [⟨"S-1", 40, 100, "ship", .idle⟩] []
    false false false true [] [("S-1", "mine")] (by decide)
    ⟨"S-1", 40, 100, "ship", .idle⟩ "mine" (by decide) (by decide) (by decide) (by decide)

/-- C4 witness: the amended theorem applied to an agent with restart_count 2
(third crash: backoff 60 s, counter moves to 3) and to one with
restart_count 5 (parked). -/
theorem handle_crash_amended_witness :
    (FleetCommander.handle_crash ⟨.trade, 2, true⟩ false true).2 = .restarted 60 ∧
    (FleetCommander.handle_crash ⟨.trade, 2, true⟩ false true).1.restart_count = 3 ∧
    FleetCommander.handle_crash ⟨.trade, 5, true⟩ false true =
      (⟨.idle, 5, false⟩, .parked) := by
  refine ⟨?_, ?_, ?_⟩
  · exact (handle_crash_amended.1 ⟨.trade, 2, true⟩ (by decide)).1
  · exact (handle_crash_amended.1 ⟨.trade, 2, true⟩ (by decide)).2
  · exact handle_crash_amended.2.1 ⟨.trade, 5, true⟩ false true (by decide)

end Spacetraders
